import Mathlib

/-!
Shallow embedding of the transaction submission core of
src/app/grants/management/commands/round8_payouts.py : the set_payouts /
set_payouts_test branch of Command.handle, together with the local helper
function chunks defined inside it.  External collaborators (the web3 node,
the gas oracle recommend_min_gas_price_to_confirm_in_time, has_tx_mined)
are modelled as oracle functions indexed by the number of calls of that
kind made so far.  Machine integers are modelled as Nat (the script uses
unbounded Python ints).  Wall-clock sleeps are recorded as trace events.
-/

set_option maxRecDepth 100000

namespace Round8

/-- One element of full_payouts_mapping: a dict with keys recipient
(the grant admin address) and amount (Decimal amount scaled to wei).
Addresses and wei amounts are modelled as Nat. -/
structure PayoutEntry where
  recipient : Nat
  amount : Nat
deriving DecidableEq

/-- The tx_args dict built at lines 234-238 of the source: nonce, gas
(the gas limit) and gasPrice, all Python ints. -/
structure TxArgs where
  nonce : Nat
  gas : Nat
  gasPrice : Nat
deriving DecidableEq

/-- The signed transaction produced by buildTransaction + signTransaction:
the chunk payload passed to setPayouts plus the tx_args fields.  Signing
adds no information relevant to the claims, so the signed object is the
pair. -/
structure SignedTx where
  payload : List PayoutEntry
  args : TxArgs
deriving DecidableEq

/-- Result of one w3.eth.sendRawTransaction call: either a transaction
hash (the .hex() string, modelled as Nat) or a raised exception carrying
a message string. -/
inductive BroadcastResult where
  | ok : Nat → BroadcastResult
  | err : String → BroadcastResult
deriving DecidableEq

/-- The external world.  Each collaborator is a function from the number
of calls of that kind made so far to the value that call returns:
broadcast models sendRawTransaction, recommend models
recommend_min_gas_price_to_confirm_in_time(1) (a gwei amount, integral),
txCount models getTransactionCount(from_address), mined models
has_tx_mined(tx_id, network). -/
structure Env where
  broadcast : Nat → BroadcastResult
  recommend : Nat → Nat
  txCount : Nat → Nat
  mined : Nat → Bool

/-- Per-collaborator call counters threaded through the run, so that
every external call consumes a fresh index. -/
structure Counters where
  sendIdx : Nat
  recIdx : Nat
  cntIdx : Nat
  minedIdx : Nat
deriving DecidableEq

def initCounters : Counters := ⟨0, 0, 0, 0⟩

/-- Observable events of a run, in program order: a broadcast attempt of
a signed transaction for a given chunk index with its result, one
has_tx_mined poll, and a time.sleep of the given number of seconds. -/
inductive Ev where
  | send : Nat → SignedTx → BroadcastResult → Ev
  | minedPoll : Nat → Nat → Bool → Ev
  | sleep : Nat → Ev
deriving DecidableEq

/-- Python substring test p in s on the character sequences of the two
strings: startsWith p l checks that p is an initial segment of l. -/
def startsWith : List Char → List Char → Bool
  | [], _ => true
  | _ :: _, [] => false
  | p :: ps, a :: l => decide (p = a) && startsWith ps l

/-- containsSeq pat l checks that pat occurs contiguously somewhere in l,
exactly the semantics of the Python expression pat in l for strings. -/
def containsSeq (pat : List Char) : List Char → Bool
  | [] => startsWith pat []
  | a :: l => startsWith pat (a :: l) || containsSeq pat l

/-- The Python test pat in s on strings. -/
def strContains (s pat : String) : Bool :=
  containsSeq pat.toList s.toList

/-- Error message fragment tested first at line 252 of the source. -/
def underpricedPat : String := "replacement transaction underpriced"

/-- Error message fragment tested at line 260 of the source. -/
def noncePat : String := "nonce too low"

/-- Line 252: whether the raised exception message contains the
underpriced fragment. -/
def isUnderpricedErr (msg : String) : Bool := strContains msg underpricedPat

/-- Line 260: whether the raised exception message contains the stale
nonce fragment. -/
def isNonceTooLowErr (msg : String) : Bool := strContains msg noncePat

/-- WAIT_TIME_BETWEEN_TXS = 15 at line 48 of the source. -/
def WAIT_TIME_BETWEEN_TXS : Nat := 15

/-- Gas limit constant from line 236: gas is set to 8000000. -/
def GAS_LIMIT : Nat := 8000000

/-- Fuel-bounded floor of the base two logarithm; the fuel bound used
below, the number itself, always suffices, since repeated halving of n
reaches 1 within n steps. -/
def log2Aux : Nat → Nat → Nat
  | 0, _ => 0
  | fuel + 1, n => if n ≤ 1 then 0 else log2Aux fuel (n / 2) + 1

/-- Floor of the base two logarithm, total and kernel-computable. -/
def natLog2 (n : Nat) : Nat := log2Aux n n

/-- Round-to-nearest-even of a natural number to 53 significant bits: the
exact value of the IEEE754 binary64 double nearest to num, ties to even.
The model keeps the exponent unbounded: CPython would raise OverflowError
for numbers at or above 2 ^ 1024, a regime outside every gas magnitude
this development evaluates. -/
def rne53 (num : Nat) : Nat :=
  if num < 2 ^ 53 then num
  else
    let d := natLog2 num - 52
    let m0 := num / 2 ^ d
    let rem := num % 2 ^ d
    let half := 2 ^ (d - 1)
    if rem < half then m0 * 2 ^ d
    else if half < rem then (m0 + 1) * 2 ^ d
    else if m0 % 2 = 0 then m0 * 2 ^ d else (m0 + 1) * 2 ^ d

/-- Numerator of the double literal 1.4: the binary64 value nearest to
1.4 is 6305039478318694 / 2 ^ 52, slightly below 1.4. -/
def FLOAT14_NUM : Nat := 6305039478318694

/-- Numerator of the double literal 1.6: the binary64 value nearest to
1.6 is 7205759403792794 / 2 ^ 52, slightly above 1.6. -/
def FLOAT16_NUM : Nat := 7205759403792794

/-- The Python expression int(float(r) * 10 ** 9 * mul) for an integral
oracle output r and a double literal mul with value mulNum / 2 ^ 52:
float(r) rounds r to a double, an integer; the product with the exactly
representable 10 ** 9 is an integer rounded again; the product with the
literal is the dyadic rational (that integer * mulNum) / 2 ^ 52, whose
rounding to a double scales with the grid, so its truncation by int is
Nat division of the rounded numerator by 2 ^ 52. -/
def pyGasPrice (mulNum r : Nat) : Nat :=
  rne53 (rne53 (rne53 r * 10 ^ 9) * mulNum) / 2 ^ 52

/-- Line 237: int(float(r) * 10 ** 9 * 1.4) in IEEE754 double
arithmetic.  Because the double 1.4 lies slightly below 1.4, this equals
the exact 14 * 10 ^ 8 * r for some r (1 and 10 among them) and
14 * 10 ^ 8 * r - 1 for others (3 among them). -/
def initialGasPrice (r : Nat) : Nat := pyGasPrice FLOAT14_NUM r

/-- Line 257: int(float(r) * 10 ** 9 * 1.6) in IEEE754 double
arithmetic, the rebuilt gas price after an underpriced failure, with the
multiplier bumped from 1.4 to 1.6. -/
def bumpedGasPrice (r : Nat) : Nat := pyGasPrice FLOAT16_NUM r

/-- Lines 234-238: build the initial tx_args for a chunk.  The nonce is
fetched from getTransactionCount and the gas price from the oracle, each
consuming one fresh call index. -/
def buildTxArgs (env : Env) (c : Counters) : TxArgs × Counters :=
  ({ nonce := env.txCount c.cntIdx,
     gas := GAS_LIMIT,
     gasPrice := initialGasPrice (env.recommend c.recIdx) },
   { c with cntIdx := c.cntIdx + 1, recIdx := c.recIdx + 1 })

/-- Outcome of the while not success loop for one chunk: a successful
broadcast with the returned hash, a re-raised unrecognized exception, or
exhaustion of the fuel bound used to make the unbounded Python loop a
total function. -/
inductive LoopOut where
  | success : Nat → Counters → LoopOut
  | fatal : String → Counters → LoopOut
  | fuelOut : LoopOut
deriving DecidableEq

/-- Prepend a failed attempt event and the retry cooldown sleep to the
trace of the rest of the loop. -/
def mkRetry (ev : Ev) (r : LoopOut × List Ev) : LoopOut × List Ev :=
  (r.1, ev :: Ev.sleep WAIT_TIME_BETWEEN_TXS :: r.2)

/-- Lines 243-269: the while not success loop.  Each iteration broadcasts
the signed transaction built from payload and the current tx_args.  On an
exception whose message contains the underpriced fragment it sleeps 15s
and rebuilds with gasPrice from a fresh oracle call at multiplier 1.6; on
elif nonce too low it sleeps 15s and rebuilds with a freshly fetched
nonce; any other exception is re-raised.  Fuel bounds the recursion; the
Python loop is unbounded. -/
def sendLoop (env : Env) (chunkIdx : Nat) (payload : List PayoutEntry) :
    TxArgs → Counters → Nat → LoopOut × List Ev
  | _, _, 0 => (LoopOut.fuelOut, [])
  | args, c, fuel + 1 =>
    match env.broadcast c.sendIdx with
    | BroadcastResult.ok txId =>
        (LoopOut.success txId { c with sendIdx := c.sendIdx + 1 },
         [Ev.send chunkIdx ⟨payload, args⟩ (BroadcastResult.ok txId)])
    | BroadcastResult.err msg =>
        if isUnderpricedErr msg then
          mkRetry (Ev.send chunkIdx ⟨payload, args⟩ (BroadcastResult.err msg))
            (sendLoop env chunkIdx payload
              { args with gasPrice := bumpedGasPrice (env.recommend c.recIdx) }
              { c with sendIdx := c.sendIdx + 1, recIdx := c.recIdx + 1 } fuel)
        else if isNonceTooLowErr msg then
          mkRetry (Ev.send chunkIdx ⟨payload, args⟩ (BroadcastResult.err msg))
            (sendLoop env chunkIdx payload
              { args with nonce := env.txCount c.cntIdx }
              { c with sendIdx := c.sendIdx + 1, cntIdx := c.cntIdx + 1 } fuel)
        else
          (LoopOut.fatal msg { c with sendIdx := c.sendIdx + 1 },
           [Ev.send chunkIdx ⟨payload, args⟩ (BroadcastResult.err msg)])

/-- Prepend a failed poll event and the 1 second sleep to the trace of
the rest of the confirmation wait. -/
def mkPollStep (ev : Ev) (r : Option Counters × List Ev) : Option Counters × List Ev :=
  (r.1, ev :: Ev.sleep 1 :: r.2)

/-- Lines 276-277: while not has_tx_mined(tx_id, network): time.sleep(1).
Fuel bounds the unbounded Python poll. -/
def waitMined (env : Env) (chunkIdx txId : Nat) : Counters → Nat → Option Counters × List Ev
  | _, 0 => (none, [])
  | c, fuel + 1 =>
    if env.mined c.minedIdx then
      (some { c with minedIdx := c.minedIdx + 1 }, [Ev.minedPoll chunkIdx txId true])
    else
      mkPollStep (Ev.minedPoll chunkIdx txId false)
        (waitMined env chunkIdx txId { c with minedIdx := c.minedIdx + 1 } fuel)

/-- One iteration of the for payout_mapping in chunked_payouts_mapping
loop, lines 232-282: build and sign the initial transaction, run the
broadcast retry loop, then (on success) wait for the transaction to mine
and sleep the fixed 15 second inter-chunk delay.  The dead guard
if not tx_id at line 271 cannot fire, since the loop only exits with a
non-empty hash string. -/
def processChunk (env : Env) (chunkIdx : Nat) (payload : List PayoutEntry)
    (c : Counters) (fuel : Nat) : LoopOut × List Ev :=
  match sendLoop env chunkIdx payload (buildTxArgs env c).1 (buildTxArgs env c).2 fuel with
  | (LoopOut.fuelOut, tr) => (LoopOut.fuelOut, tr)
  | (LoopOut.fatal msg c1, tr) => (LoopOut.fatal msg c1, tr)
  | (LoopOut.success txId c1, tr) =>
    match waitMined env chunkIdx txId c1 fuel with
    | (none, wtr) => (LoopOut.fuelOut, tr ++ wtr)
    | (some c2, wtr) =>
        (LoopOut.success txId c2, tr ++ wtr ++ [Ev.sleep WAIT_TIME_BETWEEN_TXS])

/-- Outcome of the whole chunk loop: normal completion carrying the value
of the tx_id variable after the loop (the hash of the last chunk, or none
when there were no chunks), a propagated broadcast exception, or fuel
exhaustion. -/
inductive BatchOut where
  | done : Option Nat → Counters → BatchOut
  | fatal : String → Counters → BatchOut
  | fuelOut : BatchOut
deriving DecidableEq

/-- The for payout_mapping in chunked_payouts_mapping loop itself.  The
lastTx argument is the current value of the Python tx_id variable, which
is overwritten by each successful chunk; a re-raised exception aborts the
remaining chunks. -/
def runChunks (env : Env) :
    List (List PayoutEntry) → Nat → Counters → Option Nat → Nat → BatchOut × List Ev
  | [], _, c, lastTx, _ => (BatchOut.done lastTx c, [])
  | payload :: rest, chunkIdx, c, _, fuel =>
    match processChunk env chunkIdx payload c fuel with
    | (LoopOut.fuelOut, tr) => (BatchOut.fuelOut, tr)
    | (LoopOut.fatal msg c1, tr) => (BatchOut.fatal msg c1, tr)
    | (LoopOut.success txId c1, tr) =>
      match runChunks env rest (chunkIdx + 1) c1 (some txId) fuel with
      | (out, tr2) => (out, tr ++ tr2)

/-- The local helper chunks(lst, n) at lines 222-225, specialised to its
recursion structure: for i in range(0, len(lst), n): yield lst[i:i+n].
Each step of the range consumes n elements of the list, so len(lst) steps
of fuel always suffice when n is at least 1; Python raises ValueError for
n = 0, and all theorems below assume 0 < n. -/
def chunksAux {α : Type} (n : Nat) : Nat → List α → List (List α)
  | 0, _ => []
  | fuel + 1, l =>
    if l.isEmpty then [] else l.take n :: chunksAux n fuel (l.drop n)

/-- chunks(lst, n) as a total function, with fuel instantiated to the
length of the list. -/
def chunksList {α : Type} (l : List α) (n : Nat) : List (List α) :=
  if n = 0 then [] else chunksAux n l.length l

/-- Lines 227-282 composed: chunked_payouts_mapping = chunks(mapping, 120)
followed by the chunk loop, starting from fresh call counters and
tx_id unset. -/
def setPayoutsRun (env : Env) (entries : List PayoutEntry) (fuel : Nat) :
    BatchOut × List Ev :=
  runChunks env (chunksList entries 120) 0 initCounters none fuel

/-- A CLRMatch row, restricted to the fields written by the final
database loop at lines 285-295. -/
structure MatchRec where
  amount : Nat
  payout_tx : Option Nat
  test_payout_tx : Option Nat
deriving DecidableEq

/-- Lines 285-295: after all chunks have been confirmed, every match in
the unpaid batch is saved with the current value of tx_id in payout_tx
(real payout) or test_payout_tx (test payout). -/
def updateMatches (isReal : Bool) (ms : List MatchRec) (txId : Nat) : List MatchRec :=
  ms.map fun m =>
    if isReal then { m with payout_tx := some txId }
    else { m with test_payout_tx := some txId }

/-- The gas prices of the broadcast attempts recorded in a trace, in
program order. -/
def attemptGasPrices (tr : List Ev) : List Nat :=
  tr.filterMap fun e =>
    match e with
    | Ev.send _ tx _ => some tx.args.gasPrice
    | _ => none

/-- Whether an event is a broadcast attempt. -/
def isSendEv : Ev → Bool
  | Ev.send _ _ _ => true
  | _ => false

/-- Whether an event is the 15 second retry cooldown sleep. -/
def isSleep15 : Ev → Bool
  | Ev.sleep n => decide (n = 15)
  | _ => false

/-- Concrete world in which every broadcast raises an unrecognized
exception. -/
def envFatal : Env :=
  ⟨fun _ => BroadcastResult.err "boom", fun _ => 1, fun k => k, fun _ => true⟩

/-- Concrete world with two underpriced rejections before acceptance, in
which the oracle recommendation drops from 10 gwei to 1 gwei after the
first call. -/
def envUp2 : Env :=
  ⟨fun k => if k ≤ 1 then BroadcastResult.err "replacement transaction underpriced"
            else BroadcastResult.ok 9,
   fun k => if k = 0 then 10 else 1,
   fun k => k,
   fun _ => true⟩

/-- Concrete world with one underpriced rejection before acceptance and a
constant oracle. -/
def envUp1 : Env :=
  ⟨fun k => if k = 0 then BroadcastResult.err "replacement transaction underpriced"
            else BroadcastResult.ok 9,
   fun _ => 1,
   fun k => k,
   fun _ => true⟩

/-- Concrete world with one stale nonce rejection before acceptance. -/
def envNtl1 : Env :=
  ⟨fun k => if k = 0 then BroadcastResult.err "nonce too low"
            else BroadcastResult.ok 9,
   fun _ => 1,
   fun k => k,
   fun _ => true⟩

/-- Concrete world with one underpriced then one stale nonce rejection
before acceptance. -/
def envMixed : Env :=
  ⟨fun k => if k = 0 then BroadcastResult.err "replacement transaction underpriced"
            else if k = 1 then BroadcastResult.err "nonce too low"
            else BroadcastResult.ok 9,
   fun _ => 1,
   fun k => k,
   fun _ => true⟩

/-- Concrete world in which every broadcast is accepted at once. -/
def envOk : Env :=
  ⟨fun _ => BroadcastResult.ok 7, fun _ => 1, fun k => k, fun _ => true⟩

/-- Concrete world whose oracle recommends 3 gwei, every broadcast
accepted at once. -/
def envR3 : Env :=
  ⟨fun _ => BroadcastResult.ok 7, fun _ => 3, fun k => k, fun _ => true⟩

lemma chunksAux_nil {α : Type} (n fuel : Nat) : chunksAux (α := α) n fuel [] = [] := by
  cases fuel <;> simp [chunksAux]

lemma chunksAux_flatten {α : Type} (n : Nat) (hn : 0 < n) :
    ∀ (fuel : Nat) (l : List α), l.length ≤ fuel → (chunksAux n fuel l).flatten = l := by
  intro fuel
  induction fuel with
  | zero =>
    intro l hl
    have hnil : l = [] := List.eq_nil_of_length_eq_zero (Nat.le_zero.mp hl)
    subst hnil
    simp [chunksAux]
  | succ fuel ih =>
    intro l hl
    cases l with
    | nil => simp [chunksAux]
    | cons a t =>
      have hdrop : ((a :: t).drop n).length ≤ fuel := by
        have := (a :: t).length_drop n
        have : ((a :: t).drop n).length = t.length + 1 - n := by simpa using this
        simp only [List.length_cons] at hl
        omega
      simp only [chunksAux, List.isEmpty_cons, Bool.false_eq_true, if_false,
        List.flatten_cons]
      rw [ih _ hdrop, List.take_append_drop]

lemma chunksAux_length_le {α : Type} (n : Nat) :
    ∀ (fuel : Nat) (l ch : List α), ch ∈ chunksAux n fuel l → ch.length ≤ n := by
  intro fuel
  induction fuel with
  | zero => intro l ch h; simp [chunksAux] at h
  | succ fuel ih =>
    intro l ch h
    cases l with
    | nil => simp [chunksAux] at h
    | cons a t =>
      simp only [chunksAux, List.isEmpty_cons, Bool.false_eq_true, if_false,
        List.mem_cons] at h
      rcases h with h | h
      · subst h
        simp [List.length_take]
      · exact ih _ _ h

lemma chunksAux_ne_nil {α : Type} (n fuel : Nat) (a : α) (t : List α) :
    chunksAux n (fuel + 1) (a :: t) ≠ [] := by
  simp [chunksAux]

lemma chunksAux_dropLast {α : Type} (n : Nat) (hn : 0 < n) :
    ∀ (fuel : Nat) (l ch : List α), l.length ≤ fuel →
      ch ∈ (chunksAux n fuel l).dropLast → ch.length = n := by
  intro fuel
  induction fuel with
  | zero => intro l ch hl h; simp [chunksAux] at h
  | succ fuel ih =>
    intro l ch hl h
    cases l with
    | nil => simp [chunksAux] at h
    | cons a t =>
      have hlen : (a :: t).length = t.length + 1 := by simp
      have hdrop : ((a :: t).drop n).length ≤ fuel := by
        have := (a :: t).length_drop n
        have : ((a :: t).drop n).length = t.length + 1 - n := by simpa using this
        simp only [List.length_cons] at hl
        omega
      simp only [chunksAux, List.isEmpty_cons, Bool.false_eq_true, if_false] at h
      rcases hd : (a :: t).drop n with _ | ⟨b, u⟩
      · have hrec : chunksAux n fuel ((a :: t).drop n) = [] := by
          rw [hd]; exact chunksAux_nil n fuel
        rw [hrec] at h
        simp at h
      · have hlt : n < (a :: t).length := by
          apply List.length_lt_of_drop_ne_nil
          rw [hd]
          simp
        have hrest : chunksAux n fuel ((a :: t).drop n) ≠ [] := by
          cases fuel with
          | zero =>
            exfalso
            have : ((a :: t).drop n).length = 0 := Nat.le_zero.mp hdrop
            rw [hd] at this
            simp at this
          | succ f =>
            rw [hd]
            exact chunksAux_ne_nil n f b u
        rw [List.dropLast_cons_of_ne_nil hrest, List.mem_cons] at h
        rcases h with h | h
        · subst h
          simp only [List.length_take]
          omega
        · exact ih _ _ hdrop h

/-- C3 (confirmed): for every input list and chunk size n bigger than 0,
the chunks produced by the chunks helper concatenate back to the input in
order with nothing duplicated or dropped, every chunk has length at most
n, every chunk except the last has length exactly n, and an input of 250
entries with n = 120 yields chunks of lengths 120, 120, 10 in that
order. -/
theorem c3_chunk_completeness (l : List PayoutEntry) (n : Nat) (hn : 0 < n) :
    (chunksList l n).flatten = l ∧
    (∀ ch ∈ chunksList l n, ch.length ≤ n) ∧
    (∀ ch ∈ (chunksList l n).dropLast, ch.length = n) ∧
    (chunksList (List.range 250) 120).map List.length = [120, 120, 10] := by
  have hn0 : n ≠ 0 := Nat.pos_iff_ne_zero.mp hn
  refine ⟨?_, ?_, ?_, ?_⟩
  · simp only [chunksList, hn0, if_false]
    exact chunksAux_flatten n hn l.length l le_rfl
  · intro ch hch
    simp only [chunksList, hn0, if_false] at hch
    exact chunksAux_length_le n l.length l ch hch
  · intro ch hch
    simp only [chunksList, hn0, if_false] at hch
    exact chunksAux_dropLast n hn l.length l ch le_rfl hch
  · decide

/-- Closed witness for c3_chunk_completeness at a concrete list and chunk
size. -/
theorem c3_chunk_completeness_witness :
    (chunksList [(⟨1, 2⟩ : PayoutEntry), ⟨3, 4⟩, ⟨5, 6⟩] 2).flatten =
        [(⟨1, 2⟩ : PayoutEntry), ⟨3, 4⟩, ⟨5, 6⟩] ∧
    (∀ ch ∈ chunksList [(⟨1, 2⟩ : PayoutEntry), ⟨3, 4⟩, ⟨5, 6⟩] 2, ch.length ≤ 2) ∧
    (∀ ch ∈ (chunksList [(⟨1, 2⟩ : PayoutEntry), ⟨3, 4⟩, ⟨5, 6⟩] 2).dropLast,
        ch.length = 2) ∧
    (chunksList (List.range 250) 120).map List.length = [120, 120, 10] :=
  c3_chunk_completeness [⟨1, 2⟩, ⟨3, 4⟩, ⟨5, 6⟩] 2 (by decide)

/-- C10 (confirmed): an empty unpaid payout list chunks to an empty
sequence of chunks, and the run makes no broadcast, records no event at
all, and completes normally with tx_id still unset. -/
theorem c10_empty_batch_noop (env : Env) (fuel : Nat) :
    chunksList ([] : List PayoutEntry) 120 = [] ∧
    setPayoutsRun env [] fuel = (BatchOut.done none initCounters, []) :=
  ⟨rfl, rfl⟩

lemma sendLoop_zero (env : Env) (i : Nat) (p : List PayoutEntry) (args : TxArgs)
    (c : Counters) : sendLoop env i p args c 0 = (LoopOut.fuelOut, []) := rfl

lemma sendLoop_succ_ok (env : Env) (i : Nat) (p : List PayoutEntry) (args : TxArgs)
    (c : Counters) (fuel t : Nat)
    (hb : env.broadcast c.sendIdx = BroadcastResult.ok t) :
    sendLoop env i p args c (fuel + 1) =
      (LoopOut.success t { c with sendIdx := c.sendIdx + 1 },
       [Ev.send i ⟨p, args⟩ (BroadcastResult.ok t)]) := by
  simp [sendLoop, hb]

lemma sendLoop_succ_up (env : Env) (i : Nat) (p : List PayoutEntry) (args : TxArgs)
    (c : Counters) (fuel : Nat) (m : String)
    (hb : env.broadcast c.sendIdx = BroadcastResult.err m)
    (hu : isUnderpricedErr m = true) :
    sendLoop env i p args c (fuel + 1) =
      ((sendLoop env i p { args with gasPrice := bumpedGasPrice (env.recommend c.recIdx) }
          { c with sendIdx := c.sendIdx + 1, recIdx := c.recIdx + 1 } fuel).1,
       Ev.send i ⟨p, args⟩ (BroadcastResult.err m) :: Ev.sleep 15 ::
        (sendLoop env i p { args with gasPrice := bumpedGasPrice (env.recommend c.recIdx) }
          { c with sendIdx := c.sendIdx + 1, recIdx := c.recIdx + 1 } fuel).2) := by
  simp [sendLoop, hb, hu, mkRetry, WAIT_TIME_BETWEEN_TXS]

lemma sendLoop_succ_ntl (env : Env) (i : Nat) (p : List PayoutEntry) (args : TxArgs)
    (c : Counters) (fuel : Nat) (m : String)
    (hb : env.broadcast c.sendIdx = BroadcastResult.err m)
    (hu : isUnderpricedErr m = false) (hn : isNonceTooLowErr m = true) :
    sendLoop env i p args c (fuel + 1) =
      ((sendLoop env i p { args with nonce := env.txCount c.cntIdx }
          { c with sendIdx := c.sendIdx + 1, cntIdx := c.cntIdx + 1 } fuel).1,
       Ev.send i ⟨p, args⟩ (BroadcastResult.err m) :: Ev.sleep 15 ::
        (sendLoop env i p { args with nonce := env.txCount c.cntIdx }
          { c with sendIdx := c.sendIdx + 1, cntIdx := c.cntIdx + 1 } fuel).2) := by
  simp [sendLoop, hb, hu, hn, mkRetry, WAIT_TIME_BETWEEN_TXS]

lemma sendLoop_succ_fatal (env : Env) (i : Nat) (p : List PayoutEntry) (args : TxArgs)
    (c : Counters) (fuel : Nat) (m : String)
    (hb : env.broadcast c.sendIdx = BroadcastResult.err m)
    (hu : isUnderpricedErr m = false) (hn : isNonceTooLowErr m = false) :
    sendLoop env i p args c (fuel + 1) =
      (LoopOut.fatal m { c with sendIdx := c.sendIdx + 1 },
       [Ev.send i ⟨p, args⟩ (BroadcastResult.err m)]) := by
  simp [sendLoop, hb, hu, hn]

/-- Every event the retry loop records is a broadcast attempt for its own
chunk index or the 15 second cooldown sleep. -/
lemma sendLoop_local (env : Env) (i : Nat) (p : List PayoutEntry) :
    ∀ (fuel : Nat) (args : TxArgs) (c : Counters),
      ∀ e ∈ (sendLoop env i p args c fuel).2,
        (∃ tx res, e = Ev.send i tx res) ∨ e = Ev.sleep 15 := by
  intro fuel
  induction fuel with
  | zero => intro args c e he; simp [sendLoop_zero] at he
  | succ fuel ih =>
    intro args c e he
    cases hb : env.broadcast c.sendIdx with
    | ok t =>
      rw [sendLoop_succ_ok env i p args c fuel t hb] at he
      simp only [List.mem_singleton] at he
      exact Or.inl ⟨_, _, he⟩
    | err m =>
      by_cases hu : isUnderpricedErr m
      · rw [sendLoop_succ_up env i p args c fuel m hb hu] at he
        simp only [List.mem_cons] at he
        rcases he with he | he | he
        · exact Or.inl ⟨_, _, he⟩
        · exact Or.inr he
        · exact ih _ _ e he
      · by_cases hn : isNonceTooLowErr m
        · rw [sendLoop_succ_ntl env i p args c fuel m (by simpa using hb)
            (by simpa using hu) hn] at he
          simp only [List.mem_cons] at he
          rcases he with he | he | he
          · exact Or.inl ⟨_, _, he⟩
          · exact Or.inr he
          · exact ih _ _ e he
        · rw [sendLoop_succ_fatal env i p args c fuel m hb (by simpa using hu)
            (by simpa using hn)] at he
          simp only [List.mem_singleton] at he
          exact Or.inl ⟨_, _, he⟩

/-- Every broadcast attempt of one retry loop carries the same chunk
payload and the same gas limit: rebuilds touch only nonce and
gasPrice. -/
lemma sendLoop_payload_gas (env : Env) (i : Nat) (p : List PayoutEntry) :
    ∀ (fuel : Nat) (args : TxArgs) (c : Counters) (j : Nat) (tx : SignedTx)
      (res : BroadcastResult),
      Ev.send j tx res ∈ (sendLoop env i p args c fuel).2 →
      tx.payload = p ∧ tx.args.gas = args.gas := by
  intro fuel
  induction fuel with
  | zero => intro args c j tx res he; simp [sendLoop_zero] at he
  | succ fuel ih =>
    intro args c j tx res he
    cases hb : env.broadcast c.sendIdx with
    | ok t =>
      rw [sendLoop_succ_ok env i p args c fuel t hb] at he
      simp only [List.mem_singleton] at he
      injection he with hj htx hres
      subst htx
      exact ⟨rfl, rfl⟩
    | err m =>
      by_cases hu : isUnderpricedErr m
      · rw [sendLoop_succ_up env i p args c fuel m hb hu] at he
        simp only [List.mem_cons] at he
        rcases he with he | he | he
        · injection he with hj htx hres
          subst htx
          exact ⟨rfl, rfl⟩
        · exact absurd he (by simp)
        · exact ih { args with gasPrice := bumpedGasPrice (env.recommend c.recIdx) }
            { c with sendIdx := c.sendIdx + 1, recIdx := c.recIdx + 1 } j tx res he
      · by_cases hn : isNonceTooLowErr m
        · rw [sendLoop_succ_ntl env i p args c fuel m hb (by simpa using hu) hn] at he
          simp only [List.mem_cons] at he
          rcases he with he | he | he
          · injection he with hj htx hres
            subst htx
            exact ⟨rfl, rfl⟩
          · exact absurd he (by simp)
          · exact ih { args with nonce := env.txCount c.cntIdx }
              { c with sendIdx := c.sendIdx + 1, cntIdx := c.cntIdx + 1 } j tx res he
        · rw [sendLoop_succ_fatal env i p args c fuel m hb (by simpa using hu)
            (by simpa using hn)] at he
          simp only [List.mem_singleton] at he
          injection he with hj htx hres
          subst htx
          exact ⟨rfl, rfl⟩

/-- A broadcast attempt rejected with a message that matches neither
known transient fragment ends the loop at once: the loop output is that
re-raised exception and the rejected attempt is the last event of the
loop trace. -/
lemma sendLoop_fatal_mem (env : Env) (i : Nat) (p : List PayoutEntry) :
    ∀ (fuel : Nat) (args : TxArgs) (c : Counters) (out : LoopOut) (tr : List Ev)
      (j : Nat) (tx : SignedTx) (m : String),
      sendLoop env i p args c fuel = (out, tr) →
      Ev.send j tx (BroadcastResult.err m) ∈ tr →
      isUnderpricedErr m = false → isNonceTooLowErr m = false →
      (∃ c', out = LoopOut.fatal m c') ∧
        ∃ tr₀, tr = tr₀ ++ [Ev.send j tx (BroadcastResult.err m)] := by
  intro fuel
  induction fuel with
  | zero =>
    intro args c out tr j tx m hrun he hu hn
    rw [sendLoop_zero] at hrun
    injection hrun with h1 h2
    subst h2
    simp at he
  | succ fuel ih =>
    intro args c out tr j tx m hrun he hu hn
    cases hb : env.broadcast c.sendIdx with
    | ok t =>
      rw [sendLoop_succ_ok env i p args c fuel t hb] at hrun
      injection hrun with h1 h2
      subst h2
      simp only [List.mem_singleton] at he
      simp at he
    | err m0 =>
      by_cases hu0 : isUnderpricedErr m0
      · rw [sendLoop_succ_up env i p args c fuel m0 hb hu0] at hrun
        injection hrun with h1 h2
        subst h1
        subst h2
        simp only [List.mem_cons] at he
        rcases he with he | he | he
        · exfalso
          injection he with hj htx hres
          injection hres with hm
          subst hm
          rw [hu] at hu0
          exact Bool.false_ne_true hu0
        · exact absurd he (by simp)
        · obtain ⟨hout, tr₀, htr⟩ :=
            ih { args with gasPrice := bumpedGasPrice (env.recommend c.recIdx) }
              { c with sendIdx := c.sendIdx + 1, recIdx := c.recIdx + 1 }
              (sendLoop env i p
                { args with gasPrice := bumpedGasPrice (env.recommend c.recIdx) }
                { c with sendIdx := c.sendIdx + 1, recIdx := c.recIdx + 1 } fuel).1
              (sendLoop env i p
                { args with gasPrice := bumpedGasPrice (env.recommend c.recIdx) }
                { c with sendIdx := c.sendIdx + 1, recIdx := c.recIdx + 1 } fuel).2
              j tx m rfl he hu hn
          refine ⟨hout, Ev.send i ⟨p, args⟩ (BroadcastResult.err m0) :: Ev.sleep 15 :: tr₀, ?_⟩
          simp [htr]
      · by_cases hn0 : isNonceTooLowErr m0
        · rw [sendLoop_succ_ntl env i p args c fuel m0 hb (by simpa using hu0) hn0] at hrun
          injection hrun with h1 h2
          subst h1
          subst h2
          simp only [List.mem_cons] at he
          rcases he with he | he | he
          · exfalso
            injection he with hj htx hres
            injection hres with hm
            subst hm
            rw [hn] at hn0
            exact Bool.false_ne_true hn0
          · exact absurd he (by simp)
          · obtain ⟨hout, tr₀, htr⟩ :=
              ih { args with nonce := env.txCount c.cntIdx }
                { c with sendIdx := c.sendIdx + 1, cntIdx := c.cntIdx + 1 }
                (sendLoop env i p { args with nonce := env.txCount c.cntIdx }
                  { c with sendIdx := c.sendIdx + 1, cntIdx := c.cntIdx + 1 } fuel).1
                (sendLoop env i p { args with nonce := env.txCount c.cntIdx }
                  { c with sendIdx := c.sendIdx + 1, cntIdx := c.cntIdx + 1 } fuel).2
                j tx m rfl he hu hn
            refine ⟨hout, Ev.send i ⟨p, args⟩ (BroadcastResult.err m0) :: Ev.sleep 15 :: tr₀, ?_⟩
            simp [htr]
        · rw [sendLoop_succ_fatal env i p args c fuel m0 hb (by simpa using hu0)
            (by simpa using hn0)] at hrun
          injection hrun with h1 h2
          subst h1
          subst h2
          simp only [List.mem_singleton] at he
          have hm : m0 = m := by
            injection he with hj htx hres
            injection hres with hm
            exact hm.symm
          subst hm
          refine ⟨⟨_, rfl⟩, [], ?_⟩
          rw [he]
          simp

lemma waitMined_zero (env : Env) (i t : Nat) (c : Counters) :
    waitMined env i t c 0 = (none, []) := rfl

lemma waitMined_succ_true (env : Env) (i t : Nat) (c : Counters) (fuel : Nat)
    (hm : env.mined c.minedIdx = true) :
    waitMined env i t c (fuel + 1) =
      (some { c with minedIdx := c.minedIdx + 1 }, [Ev.minedPoll i t true]) := by
  simp [waitMined, hm]

lemma waitMined_succ_false (env : Env) (i t : Nat) (c : Counters) (fuel : Nat)
    (hm : env.mined c.minedIdx = false) :
    waitMined env i t c (fuel + 1) =
      mkPollStep (Ev.minedPoll i t false)
        (waitMined env i t { c with minedIdx := c.minedIdx + 1 } fuel) := by
  simp [waitMined, hm]

/-- Every event of the confirmation wait is a poll of the given hash for
the given chunk, or the 1 second poll sleep. -/
lemma waitMined_local (env : Env) (i t : Nat) :
    ∀ (fuel : Nat) (c : Counters), ∀ e ∈ (waitMined env i t c fuel).2,
      (∃ b, e = Ev.minedPoll i t b) ∨ e = Ev.sleep 1 := by
  intro fuel
  induction fuel with
  | zero => intro c e he; simp [waitMined_zero] at he
  | succ fuel ih =>
    intro c e he
    cases hm : env.mined c.minedIdx with
    | true =>
      rw [waitMined_succ_true env i t c fuel hm] at he
      simp only [List.mem_singleton] at he
      exact Or.inl ⟨_, he⟩
    | false =>
      rw [waitMined_succ_false env i t c fuel hm] at he
      simp only [mkPollStep, List.mem_cons] at he
      rcases he with he | he | he
      · exact Or.inl ⟨_, he⟩
      · exact Or.inr he
      · exact ih _ e he

/-- A confirmation wait that reports success ends with the poll that
returned true. -/
lemma waitMined_some (env : Env) (i t : Nat) :
    ∀ (fuel : Nat) (c c2 : Counters) (wtr : List Ev),
      waitMined env i t c fuel = (some c2, wtr) →
      ∃ w0, wtr = w0 ++ [Ev.minedPoll i t true] := by
  intro fuel
  induction fuel with
  | zero =>
    intro c c2 wtr h
    rw [waitMined_zero] at h
    injection h with h1 h2
    exact Option.noConfusion h1
  | succ fuel ih =>
    intro c c2 wtr h
    cases hm : env.mined c.minedIdx with
    | true =>
      rw [waitMined_succ_true env i t c fuel hm] at h
      injection h with h1 h2
      subst h2
      exact ⟨[], by simp⟩
    | false =>
      rcases hW : waitMined env i t { c with minedIdx := c.minedIdx + 1 } fuel with ⟨o, wtr1⟩
      rw [waitMined_succ_false env i t c fuel hm, hW] at h
      simp only [mkPollStep] at h
      injection h with h1 h2
      subst h1
      subst h2
      obtain ⟨w0, hw⟩ := ih { c with minedIdx := c.minedIdx + 1 } c2 wtr1 hW
      exact ⟨Ev.minedPoll i t false :: Ev.sleep 1 :: w0, by simp [hw]⟩

/-- A retry loop that reports success recorded a broadcast attempt that
was accepted with the returned hash. -/
lemma sendLoop_ok_mem (env : Env) (i : Nat) (p : List PayoutEntry) :
    ∀ (fuel : Nat) (args : TxArgs) (c : Counters) (t : Nat) (c1 : Counters) (tr : List Ev),
      sendLoop env i p args c fuel = (LoopOut.success t c1, tr) →
      ∃ tx, Ev.send i tx (BroadcastResult.ok t) ∈ tr := by
  intro fuel
  induction fuel with
  | zero =>
    intro args c t c1 tr h
    rw [sendLoop_zero] at h
    injection h with h1 h2
    exact LoopOut.noConfusion h1
  | succ fuel ih =>
    intro args c t c1 tr h
    cases hb : env.broadcast c.sendIdx with
    | ok t0 =>
      rw [sendLoop_succ_ok env i p args c fuel t0 hb] at h
      injection h with h1 h2
      subst h2
      injection h1 with ht hc
      subst ht
      exact ⟨⟨p, args⟩, by simp⟩
    | err m =>
      by_cases hu : isUnderpricedErr m
      · rcases hS : sendLoop env i p
            { args with gasPrice := bumpedGasPrice (env.recommend c.recIdx) }
            { c with sendIdx := c.sendIdx + 1, recIdx := c.recIdx + 1 } fuel with ⟨o, tr1⟩
        rw [sendLoop_succ_up env i p args c fuel m hb hu, hS] at h
        injection h with h1 h2
        subst h2
        have h1o : o = LoopOut.success t c1 := h1
        obtain ⟨tx, htx⟩ := ih _ _ t c1 tr1 (by rw [hS, h1o])
        exact ⟨tx, by simp [htx]⟩
      · by_cases hn : isNonceTooLowErr m
        · rcases hS : sendLoop env i p { args with nonce := env.txCount c.cntIdx }
              { c with sendIdx := c.sendIdx + 1, cntIdx := c.cntIdx + 1 } fuel with ⟨o, tr1⟩
          rw [sendLoop_succ_ntl env i p args c fuel m hb (by simpa using hu) hn, hS] at h
          injection h with h1 h2
          subst h2
          have h1o : o = LoopOut.success t c1 := h1
          obtain ⟨tx, htx⟩ := ih _ _ t c1 tr1 (by rw [hS, h1o])
          exact ⟨tx, by simp [htx]⟩
        · rw [sendLoop_succ_fatal env i p args c fuel m hb (by simpa using hu)
            (by simpa using hn)] at h
          injection h with h1 h2
          exact LoopOut.noConfusion h1

/-- Unfolding of processChunk once the retry loop has succeeded: the
rest of the chunk is the confirmation wait. -/
lemma processChunk_waitStep (env : Env) (i : Nat) (p : List PayoutEntry) (c : Counters)
    (fuel t0 : Nat) (c1 : Counters) (ltr : List Ev)
    (hS : sendLoop env i p (buildTxArgs env c).1 (buildTxArgs env c).2 fuel =
      (LoopOut.success t0 c1, ltr)) :
    processChunk env i p c fuel =
      (match waitMined env i t0 c1 fuel with
       | (none, wtr) => (LoopOut.fuelOut, ltr ++ wtr)
       | (some c2, wtr) => (LoopOut.success t0 c2, ltr ++ wtr ++ [Ev.sleep 15])) := by
  unfold processChunk
  rw [hS]
  rfl

lemma processChunk_eq_fuelOut (env : Env) (i : Nat) (p : List PayoutEntry) (c : Counters)
    (fuel : Nat) (ltr : List Ev)
    (hS : sendLoop env i p (buildTxArgs env c).1 (buildTxArgs env c).2 fuel =
      (LoopOut.fuelOut, ltr)) :
    processChunk env i p c fuel = (LoopOut.fuelOut, ltr) := by
  unfold processChunk
  rw [hS]

lemma processChunk_eq_fatal (env : Env) (i : Nat) (p : List PayoutEntry) (c : Counters)
    (fuel : Nat) (m : String) (c1 : Counters) (ltr : List Ev)
    (hS : sendLoop env i p (buildTxArgs env c).1 (buildTxArgs env c).2 fuel =
      (LoopOut.fatal m c1, ltr)) :
    processChunk env i p c fuel = (LoopOut.fatal m c1, ltr) := by
  unfold processChunk
  rw [hS]

lemma processChunk_eq_mined_none (env : Env) (i : Nat) (p : List PayoutEntry) (c : Counters)
    (fuel t0 : Nat) (c1 : Counters) (ltr wtr : List Ev)
    (hS : sendLoop env i p (buildTxArgs env c).1 (buildTxArgs env c).2 fuel =
      (LoopOut.success t0 c1, ltr))
    (hW : waitMined env i t0 c1 fuel = (none, wtr)) :
    processChunk env i p c fuel = (LoopOut.fuelOut, ltr ++ wtr) := by
  rw [processChunk_waitStep env i p c fuel t0 c1 ltr hS, hW]

lemma processChunk_eq_mined_some (env : Env) (i : Nat) (p : List PayoutEntry) (c : Counters)
    (fuel t0 : Nat) (c1 c3 : Counters) (ltr wtr : List Ev)
    (hS : sendLoop env i p (buildTxArgs env c).1 (buildTxArgs env c).2 fuel =
      (LoopOut.success t0 c1, ltr))
    (hW : waitMined env i t0 c1 fuel = (some c3, wtr)) :
    processChunk env i p c fuel =
      (LoopOut.success t0 c3, ltr ++ wtr ++ [Ev.sleep 15]) := by
  rw [processChunk_waitStep env i p c fuel t0 c1 ltr hS, hW]

/-- Successful chunk processing decomposes into a successful retry loop,
a successful confirmation wait, and the inter-chunk delay. -/
lemma processChunk_success (env : Env) (i : Nat) (p : List PayoutEntry) (c : Counters)
    (fuel t : Nat) (c2 : Counters) (tr : List Ev)
    (h : processChunk env i p c fuel = (LoopOut.success t c2, tr)) :
    ∃ c1 ltr wtr,
      sendLoop env i p (buildTxArgs env c).1 (buildTxArgs env c).2 fuel =
        (LoopOut.success t c1, ltr) ∧
      waitMined env i t c1 fuel = (some c2, wtr) ∧
      tr = ltr ++ wtr ++ [Ev.sleep 15] := by
  rcases hS : sendLoop env i p (buildTxArgs env c).1 (buildTxArgs env c).2 fuel with ⟨o, ltr⟩
  cases o with
  | fuelOut =>
    rw [processChunk_eq_fuelOut env i p c fuel ltr hS] at h
    exact absurd h (by simp)
  | fatal m0 c0 =>
    rw [processChunk_eq_fatal env i p c fuel m0 c0 ltr hS] at h
    exact absurd h (by simp)
  | success t0 c1 =>
    rcases hW : waitMined env i t0 c1 fuel with ⟨w, wtr⟩
    cases w with
    | none =>
      rw [processChunk_eq_mined_none env i p c fuel t0 c1 ltr wtr hS hW] at h
      exact absurd h (by simp)
    | some c3 =>
      rw [processChunk_eq_mined_some env i p c fuel t0 c1 c3 ltr wtr hS hW] at h
      injection h with h1 h2
      injection h1 with ht hc
      subst ht
      subst hc
      subst h2
      exact ⟨c1, ltr, wtr, rfl, hW, rfl⟩

/-- Every event of a chunk trace comes from its retry loop, from its
confirmation wait, or is the inter-chunk delay. -/
lemma mem_processChunk (env : Env) (i : Nat) (p : List PayoutEntry) (c : Counters)
    (fuel : Nat) (e : Ev) (he : e ∈ (processChunk env i p c fuel).2) :
    e ∈ (sendLoop env i p (buildTxArgs env c).1 (buildTxArgs env c).2 fuel).2 ∨
    (∃ t c1, e ∈ (waitMined env i t c1 fuel).2) ∨ e = Ev.sleep 15 := by
  rcases hS : sendLoop env i p (buildTxArgs env c).1 (buildTxArgs env c).2 fuel with ⟨o, ltr⟩
  cases o with
  | fuelOut =>
    rw [processChunk_eq_fuelOut env i p c fuel ltr hS] at he
    exact Or.inl he
  | fatal m0 c0 =>
    rw [processChunk_eq_fatal env i p c fuel m0 c0 ltr hS] at he
    exact Or.inl he
  | success t0 c1 =>
    rcases hW : waitMined env i t0 c1 fuel with ⟨w, wtr⟩
    cases w with
    | none =>
      rw [processChunk_eq_mined_none env i p c fuel t0 c1 ltr wtr hS hW] at he
      simp only [List.mem_append] at he
      rcases he with he | he
      · exact Or.inl he
      · exact Or.inr (Or.inl ⟨t0, c1, by rw [hW]; exact he⟩)
    | some c3 =>
      rw [processChunk_eq_mined_some env i p c fuel t0 c1 c3 ltr wtr hS hW] at he
      simp only [List.append_assoc, List.mem_append, List.mem_singleton] at he
      rcases he with he | he | he
      · exact Or.inl he
      · exact Or.inr (Or.inl ⟨t0, c1, by rw [hW]; exact he⟩)
      · exact Or.inr (Or.inr he)

/-- Every broadcast attempt recorded while processing a chunk carries
that chunk index. -/
lemma processChunk_send_idx (env : Env) (i : Nat) (p : List PayoutEntry) (c : Counters)
    (fuel j : Nat) (tx : SignedTx) (res : BroadcastResult)
    (he : Ev.send j tx res ∈ (processChunk env i p c fuel).2) : j = i := by
  rcases mem_processChunk env i p c fuel _ he with h | ⟨t, c1, h⟩ | h
  · rcases sendLoop_local env i p fuel _ _ _ h with ⟨tx1, res1, hx⟩ | hx
    · injection hx with hj
    · exact Ev.noConfusion hx
  · rcases waitMined_local env i t fuel c1 _ h with ⟨b, hx⟩ | hx
    · exact Ev.noConfusion hx
    · exact Ev.noConfusion hx
  · exact Ev.noConfusion h

/-- A successfully processed chunk has a broadcast attempt accepted with
the hash it reports. -/
lemma processChunk_ok_mem (env : Env) (i : Nat) (p : List PayoutEntry) (c : Counters)
    (fuel t : Nat) (c2 : Counters) (tr : List Ev)
    (h : processChunk env i p c fuel = (LoopOut.success t c2, tr)) :
    ∃ tx, Ev.send i tx (BroadcastResult.ok t) ∈ tr := by
  obtain ⟨c1, ltr, wtr, hS, hW, htr⟩ := processChunk_success env i p c fuel t c2 tr h
  obtain ⟨tx, htx⟩ := sendLoop_ok_mem env i p fuel _ _ t c1 ltr hS
  exact ⟨tx, by simp [htr, htx]⟩

/-- A chunk that ends in a re-raised exception has exactly the trace of
its retry loop, which re-raised that exception. -/
lemma processChunk_fatal (env : Env) (i : Nat) (p : List PayoutEntry) (c : Counters)
    (fuel : Nat) (m : String) (c1 : Counters) (tr : List Ev)
    (h : processChunk env i p c fuel = (LoopOut.fatal m c1, tr)) :
    sendLoop env i p (buildTxArgs env c).1 (buildTxArgs env c).2 fuel =
      (LoopOut.fatal m c1, tr) := by
  rcases hS : sendLoop env i p (buildTxArgs env c).1 (buildTxArgs env c).2 fuel with ⟨o, ltr⟩
  cases o with
  | fuelOut =>
    rw [processChunk_eq_fuelOut env i p c fuel ltr hS] at h
    exact absurd h (by simp)
  | fatal m0 c0 =>
    rw [processChunk_eq_fatal env i p c fuel m0 c0 ltr hS] at h
    injection h with h1 h2
    injection h1 with hm hc
    subst hm
    subst hc
    subst h2
    rfl
  | success t0 c0 =>
    rcases hW : waitMined env i t0 c0 fuel with ⟨w, wtr⟩
    cases w with
    | none =>
      rw [processChunk_eq_mined_none env i p c fuel t0 c0 ltr wtr hS hW] at h
      exact absurd h (by simp)
    | some c3 =>
      rw [processChunk_eq_mined_some env i p c fuel t0 c0 c3 ltr wtr hS hW] at h
      exact absurd h (by simp)

/-- A broadcast attempt inside a chunk trace rejected with a message that
matches neither transient fragment forces the chunk outcome to be that
re-raised exception, as the last event of the chunk trace. -/
lemma processChunk_fatal_mem (env : Env) (i : Nat) (p : List PayoutEntry) (c : Counters)
    (fuel : Nat) (out : LoopOut) (tr : List Ev) (j : Nat) (tx : SignedTx) (m : String)
    (h : processChunk env i p c fuel = (out, tr))
    (he : Ev.send j tx (BroadcastResult.err m) ∈ tr)
    (hu : isUnderpricedErr m = false) (hn : isNonceTooLowErr m = false) :
    (∃ c', out = LoopOut.fatal m c') ∧
      ∃ tr₀, tr = tr₀ ++ [Ev.send j tx (BroadcastResult.err m)] := by
  rcases hS : sendLoop env i p (buildTxArgs env c).1 (buildTxArgs env c).2 fuel with ⟨o, ltr⟩
  cases o with
  | fuelOut =>
    rw [processChunk_eq_fuelOut env i p c fuel ltr hS] at h
    injection h with h1 h2
    subst h1
    subst h2
    obtain ⟨⟨c', ho⟩, _⟩ := sendLoop_fatal_mem env i p fuel _ _ _ _ j tx m hS he hu hn
    exact LoopOut.noConfusion ho
  | fatal m0 c0 =>
    rw [processChunk_eq_fatal env i p c fuel m0 c0 ltr hS] at h
    injection h with h1 h2
    subst h1
    subst h2
    obtain ⟨⟨c', ho⟩, tr₀, htr⟩ := sendLoop_fatal_mem env i p fuel _ _ _ _ j tx m hS he hu hn
    injection ho with hm hc
    subst hm
    exact ⟨⟨c0, rfl⟩, tr₀, htr⟩
  | success t0 c0 =>
    rcases hW : waitMined env i t0 c0 fuel with ⟨w, wtr⟩
    cases w with
    | none =>
      rw [processChunk_eq_mined_none env i p c fuel t0 c0 ltr wtr hS hW] at h
      injection h with h1 h2
      subst h1
      subst h2
      simp only [List.mem_append] at he
      rcases he with he | he
      · obtain ⟨⟨c', ho⟩, _⟩ := sendLoop_fatal_mem env i p fuel _ _ _ _ j tx m hS he hu hn
        exact LoopOut.noConfusion ho
      · rcases waitMined_local env i t0 fuel c0 _ (by rw [hW]; exact he) with ⟨b, hx⟩ | hx
        · exact Ev.noConfusion hx
        · exact Ev.noConfusion hx
    | some c3 =>
      rw [processChunk_eq_mined_some env i p c fuel t0 c0 c3 ltr wtr hS hW] at h
      injection h with h1 h2
      subst h1
      subst h2
      simp only [List.append_assoc, List.mem_append, List.mem_singleton] at he
      rcases he with he | he | he
      · obtain ⟨⟨c', ho⟩, _⟩ := sendLoop_fatal_mem env i p fuel _ _ _ _ j tx m hS he hu hn
        exact LoopOut.noConfusion ho
      · rcases waitMined_local env i t0 fuel c0 _ (by rw [hW]; exact he) with ⟨b, hx⟩ | hx
        · exact Ev.noConfusion hx
        · exact Ev.noConfusion hx
      · exact Ev.noConfusion he

lemma runChunks_nil (env : Env) (s : Nat) (c : Counters) (lt : Option Nat) (fuel : Nat) :
    runChunks env [] s c lt fuel = (BatchOut.done lt c, []) := rfl

lemma runChunks_cons_fuelOut (env : Env) (p : List PayoutEntry)
    (rest : List (List PayoutEntry)) (s : Nat) (c : Counters) (lt : Option Nat)
    (fuel : Nat) (tr : List Ev)
    (hP : processChunk env s p c fuel = (LoopOut.fuelOut, tr)) :
    runChunks env (p :: rest) s c lt fuel = (BatchOut.fuelOut, tr) := by
  unfold runChunks
  rw [hP]

lemma runChunks_cons_fatal (env : Env) (p : List PayoutEntry)
    (rest : List (List PayoutEntry)) (s : Nat) (c : Counters) (lt : Option Nat)
    (fuel : Nat) (m : String) (c1 : Counters) (tr : List Ev)
    (hP : processChunk env s p c fuel = (LoopOut.fatal m c1, tr)) :
    runChunks env (p :: rest) s c lt fuel = (BatchOut.fatal m c1, tr) := by
  unfold runChunks
  rw [hP]

lemma runChunks_consStep (env : Env) (p : List PayoutEntry)
    (rest : List (List PayoutEntry)) (s : Nat) (c : Counters) (lt : Option Nat)
    (fuel t : Nat) (c1 : Counters) (tr : List Ev)
    (hP : processChunk env s p c fuel = (LoopOut.success t c1, tr)) :
    runChunks env (p :: rest) s c lt fuel =
      (match runChunks env rest (s + 1) c1 (some t) fuel with
       | (out, tr2) => (out, tr ++ tr2)) := by
  conv_lhs => rw [runChunks]
  rw [hP]

lemma runChunks_cons_success (env : Env) (p : List PayoutEntry)
    (rest : List (List PayoutEntry)) (s : Nat) (c : Counters) (lt : Option Nat)
    (fuel t : Nat) (c1 : Counters) (tr : List Ev) (out2 : BatchOut) (tr2 : List Ev)
    (hP : processChunk env s p c fuel = (LoopOut.success t c1, tr))
    (hR : runChunks env rest (s + 1) c1 (some t) fuel = (out2, tr2)) :
    runChunks env (p :: rest) s c lt fuel = (out2, tr ++ tr2) := by
  rw [runChunks_consStep env p rest s c lt fuel t c1 tr hP, hR]

/-- Broadcast attempts recorded by the chunk loop started at chunk index
s all carry a chunk index of at least s. -/
lemma runChunks_send_ge (env : Env) :
    ∀ (cs : List (List PayoutEntry)) (s : Nat) (c : Counters) (lt : Option Nat)
      (fuel j : Nat) (tx : SignedTx) (res : BroadcastResult),
      Ev.send j tx res ∈ (runChunks env cs s c lt fuel).2 → s ≤ j := by
  intro cs
  induction cs with
  | nil =>
    intro s c lt fuel j tx res h
    rw [runChunks_nil] at h
    simp at h
  | cons p rest ih =>
    intro s c lt fuel j tx res h
    rcases hP : processChunk env s p c fuel with ⟨o, ptr⟩
    cases o with
    | fuelOut =>
      rw [runChunks_cons_fuelOut env p rest s c lt fuel ptr hP] at h
      have hj : j = s := processChunk_send_idx env s p c fuel j tx res (by rw [hP]; exact h)
      omega
    | fatal m0 c1 =>
      rw [runChunks_cons_fatal env p rest s c lt fuel m0 c1 ptr hP] at h
      have hj : j = s := processChunk_send_idx env s p c fuel j tx res (by rw [hP]; exact h)
      omega
    | success t c1 =>
      rcases hR : runChunks env rest (s + 1) c1 (some t) fuel with ⟨o2, tr2⟩
      rw [runChunks_cons_success env p rest s c lt fuel t c1 ptr o2 tr2 hP hR] at h
      have h2 : Ev.send j tx res ∈ ptr ++ tr2 := h
      rcases List.mem_append.1 h2 with hL | hR2
      · have hj : j = s := processChunk_send_idx env s p c fuel j tx res (by rw [hP]; exact hL)
        omega
      · have := ih (s + 1) c1 (some t) fuel j tx res (by rw [hR]; exact hR2)
        omega

/-- A broadcast attempt in the batch trace rejected with an unrecognized
message aborts the whole batch: the batch outcome is that re-raised
exception, the rejected attempt is the last event of the whole trace, and
no later chunk records any broadcast attempt. -/
lemma runChunks_fatal_mem (env : Env) :
    ∀ (cs : List (List PayoutEntry)) (s : Nat) (c : Counters) (lt : Option Nat)
      (fuel : Nat) (out : BatchOut) (tr : List Ev) (j : Nat) (tx : SignedTx) (m : String),
      runChunks env cs s c lt fuel = (out, tr) →
      Ev.send j tx (BroadcastResult.err m) ∈ tr →
      isUnderpricedErr m = false → isNonceTooLowErr m = false →
      (∃ c', out = BatchOut.fatal m c') ∧
      (∃ tr₀, tr = tr₀ ++ [Ev.send j tx (BroadcastResult.err m)]) ∧
      ∀ (j' : Nat) (tx' : SignedTx) (res' : BroadcastResult),
        Ev.send j' tx' res' ∈ tr → j' ≤ j := by
  intro cs
  induction cs with
  | nil =>
    intro s c lt fuel out tr j tx m hrun he hu hn
    rw [runChunks_nil] at hrun
    injection hrun with h1 h2
    subst h2
    simp at he
  | cons p rest ih =>
    intro s c lt fuel out tr j tx m hrun he hu hn
    rcases hP : processChunk env s p c fuel with ⟨o, ptr⟩
    cases o with
    | fuelOut =>
      rw [runChunks_cons_fuelOut env p rest s c lt fuel ptr hP] at hrun
      injection hrun with h1 h2
      subst h1
      subst h2
      obtain ⟨⟨c', ho⟩, -⟩ :=
        processChunk_fatal_mem env s p c fuel LoopOut.fuelOut ptr j tx m hP he hu hn
      exact LoopOut.noConfusion ho
    | fatal m0 c1 =>
      rw [runChunks_cons_fatal env p rest s c lt fuel m0 c1 ptr hP] at hrun
      injection hrun with h1 h2
      subst h1
      subst h2
      obtain ⟨⟨c', ho⟩, tr₀, htr⟩ :=
        processChunk_fatal_mem env s p c fuel (LoopOut.fatal m0 c1) ptr j tx m hP he hu hn
      injection ho with hm0 hc'
      subst hm0
      refine ⟨⟨c1, rfl⟩, ⟨tr₀, htr⟩, ?_⟩
      intro j' tx' res' h'
      have hj : j = s := processChunk_send_idx env s p c fuel j tx _ (by rw [hP]; exact he)
      have hj' : j' = s := processChunk_send_idx env s p c fuel j' tx' res' (by rw [hP]; exact h')
      omega
    | success t c1 =>
      rcases hR : runChunks env rest (s + 1) c1 (some t) fuel with ⟨o2, tr2⟩
      rw [runChunks_cons_success env p rest s c lt fuel t c1 ptr o2 tr2 hP hR] at hrun
      injection hrun with h1 h2
      subst h1
      subst h2
      have he2 : Ev.send j tx (BroadcastResult.err m) ∈ ptr ++ tr2 := he
      rcases List.mem_append.1 he2 with hL | hR2
      · obtain ⟨⟨c', ho⟩, -⟩ :=
          processChunk_fatal_mem env s p c fuel (LoopOut.success t c1) ptr j tx m hP hL hu hn
        exact LoopOut.noConfusion ho
      · obtain ⟨hout, ⟨tr₀, htr⟩, hall⟩ :=
          ih (s + 1) c1 (some t) fuel o2 tr2 j tx m hR hR2 hu hn
        refine ⟨hout, ⟨ptr ++ tr₀, by rw [htr]; simp⟩, ?_⟩
        intro j' tx' res' h'
        have h'2 : Ev.send j' tx' res' ∈ ptr ++ tr2 := h'
        rcases List.mem_append.1 h'2 with h1' | h2'
        · have hj' : j' = s := processChunk_send_idx env s p c fuel j' tx' res' (by rw [hP]; exact h1')
          have hjge : s + 1 ≤ j := runChunks_send_ge env rest (s + 1) c1 (some t) fuel j tx _ (by rw [hR]; exact hR2)
          omega
        · exact hall j' tx' res' h2'

/-- C2 (confirmed): if any broadcast attempt for some chunk is rejected
with a message that contains neither the underpriced fragment nor the
stale nonce fragment, the exception is re-raised at once as the batch
outcome, the rejected attempt is the last event of the run, and no
broadcast attempt for any later chunk ever occurs. -/
theorem c2_fatal_abort (env : Env) (cs : List (List PayoutEntry)) (c : Counters)
    (lt : Option Nat) (fuel : Nat) (out : BatchOut) (tr : List Ev) (j : Nat)
    (tx : SignedTx) (m : String)
    (hrun : runChunks env cs 0 c lt fuel = (out, tr))
    (he : Ev.send j tx (BroadcastResult.err m) ∈ tr)
    (hu : isUnderpricedErr m = false) (hn : isNonceTooLowErr m = false) :
    (∃ c', out = BatchOut.fatal m c') ∧
    (∃ tr₀, tr = tr₀ ++ [Ev.send j tx (BroadcastResult.err m)]) ∧
    ∀ (j' : Nat) (tx' : SignedTx) (res' : BroadcastResult),
      Ev.send j' tx' res' ∈ tr → j' ≤ j :=
  runChunks_fatal_mem env cs 0 c lt fuel out tr j tx m hrun he hu hn

/-- Closed witness for c2_fatal_abort: a single chunk whose only
broadcast attempt is rejected with the message boom. -/
theorem c2_fatal_abort_witness :
    (∃ c', (runChunks envFatal [[]] 0 initCounters none 1).1 = BatchOut.fatal "boom" c') ∧
    (∃ tr₀, (runChunks envFatal [[]] 0 initCounters none 1).2 =
      tr₀ ++ [Ev.send 0 ⟨[], ⟨0, 8000000, 1400000000⟩⟩ (BroadcastResult.err "boom")]) ∧
    ∀ (j' : Nat) (tx' : SignedTx) (res' : BroadcastResult),
      Ev.send j' tx' res' ∈ (runChunks envFatal [[]] 0 initCounters none 1).2 → j' ≤ 0 :=
  c2_fatal_abort envFatal [[]] initCounters none 1
    (runChunks envFatal [[]] 0 initCounters none 1).1
    (runChunks envFatal [[]] 0 initCounters none 1).2
    0 ⟨[], ⟨0, 8000000, 1400000000⟩⟩ "boom" rfl (by decide) (by decide) (by decide)

/-- Between the events of the batch, a broadcast attempt for chunk j+1
can only appear strictly after the poll that reported chunk j mined,
followed by the fixed 15 second inter-chunk sleep. -/
lemma runChunks_confirm (env : Env) :
    ∀ (cs : List (List PayoutEntry)) (s : Nat) (c : Counters) (lt : Option Nat)
      (fuel : Nat) (out : BatchOut) (tr : List Ev) (j : Nat) (tx : SignedTx)
      (res : BroadcastResult),
      runChunks env cs s c lt fuel = (out, tr) →
      Ev.send (j + 1) tx res ∈ tr → s ≤ j →
      ∃ t tr₁ tr₂,
        tr = tr₁ ++ Ev.minedPoll j t true :: Ev.sleep 15 :: tr₂ ∧
        Ev.send (j + 1) tx res ∈ tr₂ ∧
        ∀ (tx' : SignedTx) (res' : BroadcastResult),
          Ev.send (j + 1) tx' res' ∈ tr → Ev.send (j + 1) tx' res' ∈ tr₂ := by
  intro cs
  induction cs with
  | nil =>
    intro s c lt fuel out tr j tx res hrun he hs
    rw [runChunks_nil] at hrun
    injection hrun with h1 h2
    subst h2
    simp at he
  | cons p rest ih =>
    intro s c lt fuel out tr j tx res hrun he hs
    rcases hP : processChunk env s p c fuel with ⟨o, ptr⟩
    cases o with
    | fuelOut =>
      rw [runChunks_cons_fuelOut env p rest s c lt fuel ptr hP] at hrun
      injection hrun with h1 h2
      subst h2
      have hj : j + 1 = s := processChunk_send_idx env s p c fuel (j + 1) tx res (by rw [hP]; exact he)
      omega
    | fatal m0 c1 =>
      rw [runChunks_cons_fatal env p rest s c lt fuel m0 c1 ptr hP] at hrun
      injection hrun with h1 h2
      subst h2
      have hj : j + 1 = s := processChunk_send_idx env s p c fuel (j + 1) tx res (by rw [hP]; exact he)
      omega
    | success t c1 =>
      rcases hR : runChunks env rest (s + 1) c1 (some t) fuel with ⟨o2, tr2⟩
      rw [runChunks_cons_success env p rest s c lt fuel t c1 ptr o2 tr2 hP hR] at hrun
      injection hrun with h1 h2
      subst h2
      obtain ⟨c0, ltr, wtr, hS, hW, hptr⟩ := processChunk_success env s p c fuel t c1 ptr hP
      obtain ⟨w0, hw0⟩ := waitMined_some env s t fuel c0 c1 wtr hW
      have hnotp : ∀ (tx1 : SignedTx) (res1 : BroadcastResult),
          Ev.send (j + 1) tx1 res1 ∈ ptr → False := by
        intro tx1 res1 hmem
        have hj : j + 1 = s :=
          processChunk_send_idx env s p c fuel (j + 1) tx1 res1 (by rw [hP]; exact hmem)
        omega
      have he2 : Ev.send (j + 1) tx res ∈ ptr ++ tr2 := he
      have hetr2 : Ev.send (j + 1) tx res ∈ tr2 := by
        rcases List.mem_append.1 he2 with hL | hR2
        · exact absurd hL (fun hh => hnotp tx res hh)
        · exact hR2
      rcases Nat.eq_or_lt_of_le hs with heq | hlt
      · subst heq
        refine ⟨t, ltr ++ w0, tr2, ?_, hetr2, ?_⟩
        · rw [hptr, hw0]
          simp
        · intro tx' res' h'
          have h'2 : Ev.send (s + 1) tx' res' ∈ ptr ++ tr2 := h'
          rcases List.mem_append.1 h'2 with hL | hR2
          · exact absurd hL (fun hh => hnotp tx' res' hh)
          · exact hR2
      · obtain ⟨t', tr₁', tr₂', hdec, hmem', hall⟩ :=
          ih (s + 1) c1 (some t) fuel o2 tr2 j tx res hR hetr2 hlt
        refine ⟨t', ptr ++ tr₁', tr₂', ?_, hmem', ?_⟩
        · rw [hdec]
          simp
        · intro tx' res' h'
          have h'2 : Ev.send (j + 1) tx' res' ∈ ptr ++ tr2 := h'
          rcases List.mem_append.1 h'2 with hL | hR2
          · exact absurd hL (fun hh => hnotp tx' res' hh)
          · exact hall tx' res' hR2

/-- C8 (confirmed): no broadcast attempt for chunk j+1 ever occurs before
the confirmation poll has reported chunk j mined; the trace places every
attempt for chunk j+1 strictly after the poll that returned true for
chunk j, which is immediately followed by the fixed 15 second inter-chunk
sleep. -/
theorem c8_sequential_confirmation (env : Env) (cs : List (List PayoutEntry))
    (c : Counters) (lt : Option Nat) (fuel : Nat) (out : BatchOut) (tr : List Ev)
    (j : Nat) (tx : SignedTx) (res : BroadcastResult)
    (hrun : runChunks env cs 0 c lt fuel = (out, tr))
    (he : Ev.send (j + 1) tx res ∈ tr) :
    ∃ t tr₁ tr₂,
      tr = tr₁ ++ Ev.minedPoll j t true :: Ev.sleep 15 :: tr₂ ∧
      Ev.send (j + 1) tx res ∈ tr₂ ∧
      ∀ (tx' : SignedTx) (res' : BroadcastResult),
        Ev.send (j + 1) tx' res' ∈ tr → Ev.send (j + 1) tx' res' ∈ tr₂ :=
  runChunks_confirm env cs 0 c lt fuel out tr j tx res hrun he (Nat.zero_le j)

/-- Closed witness for c8_sequential_confirmation: two chunks that are
accepted and mined at once. -/
theorem c8_sequential_confirmation_witness :
    ∃ t tr₁ tr₂,
      (runChunks envOk [[], []] 0 initCounters none 1).2 =
        tr₁ ++ Ev.minedPoll 0 t true :: Ev.sleep 15 :: tr₂ ∧
      Ev.send (0 + 1) ⟨[], ⟨1, 8000000, 1400000000⟩⟩ (BroadcastResult.ok 7) ∈ tr₂ ∧
      ∀ (tx' : SignedTx) (res' : BroadcastResult),
        Ev.send (0 + 1) tx' res' ∈ (runChunks envOk [[], []] 0 initCounters none 1).2 →
          Ev.send (0 + 1) tx' res' ∈ tr₂ :=
  c8_sequential_confirmation envOk [[], []] initCounters none 1
    (runChunks envOk [[], []] 0 initCounters none 1).1
    (runChunks envOk [[], []] 0 initCounters none 1).2
    0 ⟨[], ⟨1, 8000000, 1400000000⟩⟩ (BroadcastResult.ok 7) rfl (by decide)

/-- After the chunk loop completes normally, the tx_id it returns is a
hash that was successfully broadcast for the LAST chunk. -/
lemma runChunks_done_last (env : Env) :
    ∀ (cs : List (List PayoutEntry)) (s : Nat) (c : Counters) (lt : Option Nat)
      (fuel t : Nat) (cF : Counters) (tr : List Ev),
      runChunks env cs s c lt fuel = (BatchOut.done (some t) cF, tr) →
      (cs = [] → lt = some t) ∧
      (cs ≠ [] → ∃ tx, Ev.send (s + cs.length - 1) tx (BroadcastResult.ok t) ∈ tr) := by
  intro cs
  induction cs with
  | nil =>
    intro s c lt fuel t cF tr h
    rw [runChunks_nil] at h
    injection h with h1 h2
    injection h1 with hlt hc
    exact ⟨fun _ => hlt, fun hne => absurd rfl hne⟩
  | cons p rest ih =>
    intro s c lt fuel t cF tr h
    rcases hP : processChunk env s p c fuel with ⟨o, ptr⟩
    cases o with
    | fuelOut =>
      rw [runChunks_cons_fuelOut env p rest s c lt fuel ptr hP] at h
      injection h with h1 h2
      exact BatchOut.noConfusion h1
    | fatal m0 c1 =>
      rw [runChunks_cons_fatal env p rest s c lt fuel m0 c1 ptr hP] at h
      injection h with h1 h2
      exact BatchOut.noConfusion h1
    | success t0 c1 =>
      rcases hR : runChunks env rest (s + 1) c1 (some t0) fuel with ⟨o2, tr2⟩
      rw [runChunks_cons_success env p rest s c lt fuel t0 c1 ptr o2 tr2 hP hR] at h
      injection h with h1 h2
      subst h1
      subst h2
      obtain ⟨h_nil, h_ne⟩ := ih (s + 1) c1 (some t0) fuel t cF tr2 hR
      refine ⟨fun hcontra => List.noConfusion hcontra, fun _ => ?_⟩
      cases rest with
      | nil =>
        have ht0 : some t0 = some t := h_nil rfl
        injection ht0 with ht0
        subst ht0
        obtain ⟨tx, htx⟩ := processChunk_ok_mem env s p c fuel t0 c1 ptr hP
        refine ⟨tx, ?_⟩
        have hidx : s + ([p] : List (List PayoutEntry)).length - 1 = s := by simp
        rw [hidx]
        exact List.mem_append_left _ htx
      | cons q rest2 =>
        obtain ⟨tx, htx⟩ := h_ne (List.cons_ne_nil q rest2)
        refine ⟨tx, ?_⟩
        have hidx : s + 1 + (q :: rest2).length - 1 = s + (p :: q :: rest2).length - 1 := by
          simp only [List.length_cons]
          omega
        rw [hidx] at htx
        exact List.mem_append_right _ htx

/-- C7 (confirmed): when the chunk loop completes, the single hash in the
tx_id variable is a hash successfully broadcast for the last chunk, and
the database update then stamps every match record of the unpaid batch
with that same hash, in payout_tx for a real payout and in test_payout_tx
otherwise, including matches whose entries were paid in earlier
chunks. -/
theorem c7_single_tx_hash_saved (env : Env) (cs : List (List PayoutEntry))
    (c : Counters) (lt : Option Nat) (fuel t : Nat) (cF : Counters) (tr : List Ev)
    (ms : List MatchRec) (isReal : Bool)
    (hrun : runChunks env cs 0 c lt fuel = (BatchOut.done (some t) cF, tr))
    (hne : cs ≠ []) :
    (∃ tx, Ev.send (cs.length - 1) tx (BroadcastResult.ok t) ∈ tr) ∧
    ∀ mr ∈ updateMatches isReal ms t,
      (if isReal then mr.payout_tx else mr.test_payout_tx) = some t := by
  constructor
  · have h := (runChunks_done_last env cs 0 c lt fuel t cF tr hrun).2 hne
    simpa using h
  · intro mr hmr
    unfold updateMatches at hmr
    rcases List.mem_map.1 hmr with ⟨m0, hm0, hEq⟩
    subst hEq
    cases isReal with
    | true => simp
    | false => simp

/-- Closed witness for c7_single_tx_hash_saved: two chunks both accepted
with hash 7, one match record updated. -/
theorem c7_single_tx_hash_saved_witness :
    (∃ tx, Ev.send (([[], []] : List (List PayoutEntry)).length - 1) tx
      (BroadcastResult.ok 7) ∈ (runChunks envOk [[], []] 0 initCounters none 1).2) ∧
    ∀ mr ∈ updateMatches true [⟨5, none, none⟩] 7,
      (if true then mr.payout_tx else mr.test_payout_tx) = some 7 :=
  c7_single_tx_hash_saved envOk [[], []] initCounters none 1 7 ⟨2, 2, 2, 2⟩
    (runChunks envOk [[], []] 0 initCounters none 1).2
    [⟨5, none, none⟩] true (by decide) (by decide)

/-- As long as every rejection is one of the two transient kinds, the
retry loop never re-raises: after k transient rejections and one
acceptance it reports success with the accepted hash, having made exactly
k+1 broadcast attempts and slept the 15 second cooldown exactly k
times. -/
lemma sendLoop_transient_success (env : Env) (i : Nat) (p : List PayoutEntry) :
    ∀ (k : Nat) (args : TxArgs) (c : Counters) (t fuel : Nat),
      (∀ j, j < k → ∃ m, env.broadcast (c.sendIdx + j) = BroadcastResult.err m ∧
        (isUnderpricedErr m = true ∨ isNonceTooLowErr m = true)) →
      env.broadcast (c.sendIdx + k) = BroadcastResult.ok t →
      k + 1 ≤ fuel →
      ∃ c' tr, sendLoop env i p args c fuel = (LoopOut.success t c', tr) ∧
        c'.sendIdx = c.sendIdx + k + 1 ∧
        (tr.filter isSendEv).length = k + 1 ∧
        (tr.filter isSleep15).length = k := by
  intro k
  induction k with
  | zero =>
    intro args c t fuel hscript hok hfuel
    obtain ⟨fuel1, rfl⟩ : ∃ f, fuel = f + 1 := ⟨fuel - 1, by omega⟩
    rw [sendLoop_succ_ok env i p args c fuel1 t (by simpa using hok)]
    exact ⟨_, _, rfl, by simp, by simp [isSendEv], by simp [isSleep15]⟩
  | succ k ihk =>
    intro args c t fuel hscript hok hfuel
    obtain ⟨fuel1, rfl⟩ : ∃ f, fuel = f + 1 := ⟨fuel - 1, by omega⟩
    obtain ⟨m, hb, hclass⟩ := hscript 0 (Nat.succ_pos k)
    rw [Nat.add_zero] at hb
    by_cases hu : isUnderpricedErr m
    · obtain ⟨c', tr', hrun', hcnt, hfs, hfe⟩ := ihk
        { args with gasPrice := bumpedGasPrice (env.recommend c.recIdx) }
        { c with sendIdx := c.sendIdx + 1, recIdx := c.recIdx + 1 }
        t fuel1
        (fun j hj => by
          obtain ⟨m1, hb1, hc1⟩ := hscript (j + 1) (by omega)
          refine ⟨m1, ?_, hc1⟩
          rw [show c.sendIdx + 1 + j = c.sendIdx + (j + 1) from by omega]
          exact hb1)
        (by
          rw [show c.sendIdx + 1 + k = c.sendIdx + (k + 1) from by omega]
          exact hok)
        (by omega)
      rw [sendLoop_succ_up env i p args c fuel1 m hb hu, hrun']
      refine ⟨c', Ev.send i ⟨p, args⟩ (BroadcastResult.err m) :: Ev.sleep 15 :: tr', rfl,
        by simp at hcnt; omega, ?_, ?_⟩
      · simp only [List.filter_cons, isSendEv, isSleep15]
        simp [hfs]
      · simp only [List.filter_cons, isSendEv, isSleep15]
        simp [hfe]
    · have hn : isNonceTooLowErr m = true := hclass.resolve_left (by simpa using hu)
      obtain ⟨c', tr', hrun', hcnt, hfs, hfe⟩ := ihk
        { args with nonce := env.txCount c.cntIdx }
        { c with sendIdx := c.sendIdx + 1, cntIdx := c.cntIdx + 1 }
        t fuel1
        (fun j hj => by
          obtain ⟨m1, hb1, hc1⟩ := hscript (j + 1) (by omega)
          refine ⟨m1, ?_, hc1⟩
          rw [show c.sendIdx + 1 + j = c.sendIdx + (j + 1) from by omega]
          exact hb1)
        (by
          rw [show c.sendIdx + 1 + k = c.sendIdx + (k + 1) from by omega]
          exact hok)
        (by omega)
      rw [sendLoop_succ_ntl env i p args c fuel1 m hb (by simpa using hu) hn, hrun']
      refine ⟨c', Ev.send i ⟨p, args⟩ (BroadcastResult.err m) :: Ev.sleep 15 :: tr', rfl,
        by simp at hcnt; omega, ?_, ?_⟩
      · simp only [List.filter_cons, isSendEv, isSleep15]
        simp [hfs]
      · simp only [List.filter_cons, isSendEv, isSleep15]
        simp [hfe]

/-- C4 (confirmed): as long as every broadcast rejection carries one of
the two transient messages, the retry loop never re-raises and exits only
on an accepted broadcast, whatever the number k of retries, sleeping the
fixed cooldown between consecutive attempts; the retry count is
unbounded in the sense that this holds for every k. -/
theorem c4_transient_retry_unbounded (env : Env) (i : Nat) (p : List PayoutEntry)
    (k : Nat) (args : TxArgs) (c : Counters) (t fuel : Nat)
    (hscript : ∀ j, j < k → ∃ m, env.broadcast (c.sendIdx + j) = BroadcastResult.err m ∧
      (isUnderpricedErr m = true ∨ isNonceTooLowErr m = true))
    (hok : env.broadcast (c.sendIdx + k) = BroadcastResult.ok t)
    (hfuel : k + 1 ≤ fuel) :
    ∃ c' tr, sendLoop env i p args c fuel = (LoopOut.success t c', tr) ∧
      c'.sendIdx = c.sendIdx + k + 1 ∧
      (tr.filter isSendEv).length = k + 1 ∧
      (tr.filter isSleep15).length = k :=
  sendLoop_transient_success env i p k args c t fuel hscript hok hfuel

/-- Closed witness for c4_transient_retry_unbounded: one underpriced and
one stale nonce rejection, then acceptance on the third attempt. -/
theorem c4_transient_retry_unbounded_witness :
    ∃ c' tr, sendLoop envMixed 0 [] ⟨0, 8000000, 0⟩ initCounters 3 =
      (LoopOut.success 9 c', tr) ∧
      c'.sendIdx = initCounters.sendIdx + 2 + 1 ∧
      (tr.filter isSendEv).length = 2 + 1 ∧
      (tr.filter isSleep15).length = 2 :=
  c4_transient_retry_unbounded envMixed 0 [] 2 ⟨0, 8000000, 0⟩ initCounters 9 3
    (fun j hj => by
      interval_cases j
      · exact ⟨"replacement transaction underpriced", by decide, Or.inl (by decide)⟩
      · exact ⟨"nonce too low", by decide, Or.inr (by decide)⟩)
    (by decide) (by decide)

/-- The trace of a retry loop run is either empty or starts with the
broadcast attempt of the initial arguments. -/
lemma sendLoop_head (env : Env) (i : Nat) (p : List PayoutEntry) (fuel : Nat)
    (args : TxArgs) (c : Counters) :
    (sendLoop env i p args c fuel).2 = [] ∨
    ∃ rest res, (sendLoop env i p args c fuel).2 = Ev.send i ⟨p, args⟩ res :: rest := by
  cases fuel with
  | zero => exact Or.inl rfl
  | succ f =>
    cases hb : env.broadcast c.sendIdx with
    | ok t =>
      rw [sendLoop_succ_ok env i p args c f t hb]
      exact Or.inr ⟨_, _, rfl⟩
    | err m0 =>
      by_cases hu : isUnderpricedErr m0
      · rw [sendLoop_succ_up env i p args c f m0 hb hu]
        exact Or.inr ⟨_, _, rfl⟩
      · by_cases hn : isNonceTooLowErr m0
        · rw [sendLoop_succ_ntl env i p args c f m0 hb (by simpa using hu) hn]
          exact Or.inr ⟨_, _, rfl⟩
        · rw [sendLoop_succ_fatal env i p args c f m0 hb (by simpa using hu)
            (by simpa using hn)]
          exact Or.inr ⟨_, _, rfl⟩

/-- Characterization of one retry rebuild: whenever the trace contains a
rejected attempt immediately followed (after the cooldown sleep) by
another attempt, the rebuilt transaction keeps the payload and the gas
limit; an underpriced rejection keeps the nonce and refetches the gas
price from a fresh oracle call at multiplier 1.6, and a stale nonce
rejection keeps the gas price and refetches the nonce from a fresh
transaction count call. -/
lemma sendLoop_retry_step (env : Env) (i : Nat) (p : List PayoutEntry) :
    ∀ (fuel : Nat) (args : TxArgs) (c : Counters) (out : LoopOut) (tr tr₁ : List Ev)
      (tx : SignedTx) (m : String) (tx' : SignedTx) (res' : BroadcastResult)
      (tr₂ : List Ev),
      sendLoop env i p args c fuel = (out, tr) →
      tr = tr₁ ++ Ev.send i tx (BroadcastResult.err m) :: Ev.sleep 15 ::
        Ev.send i tx' res' :: tr₂ →
      tx'.payload = tx.payload ∧ tx'.args.gas = tx.args.gas ∧
      (isUnderpricedErr m = true →
        tx'.args.nonce = tx.args.nonce ∧
        ∃ ri, c.recIdx ≤ ri ∧ tx'.args.gasPrice = bumpedGasPrice (env.recommend ri)) ∧
      (isUnderpricedErr m = false → isNonceTooLowErr m = true →
        tx'.args.gasPrice = tx.args.gasPrice ∧
        ∃ ni, c.cntIdx ≤ ni ∧ tx'.args.nonce = env.txCount ni) := by
  intro fuel
  induction fuel with
  | zero =>
    intro args c out tr tr₁ tx m tx' res' tr₂ hrun hdec
    rw [sendLoop_zero] at hrun
    injection hrun with h1 h2
    subst h2
    simp at hdec
  | succ fuel1 ih =>
    intro args c out tr tr₁ tx m tx' res' tr₂ hrun hdec
    cases hb : env.broadcast c.sendIdx with
    | ok t =>
      rw [sendLoop_succ_ok env i p args c fuel1 t hb] at hrun
      injection hrun with h1 h2
      subst h2
      exfalso
      have hlen := congrArg List.length hdec
      simp [List.length_append] at hlen
      omega
    | err m0 =>
      by_cases hu0 : isUnderpricedErr m0
      · rw [sendLoop_succ_up env i p args c fuel1 m0 hb hu0] at hrun
        injection hrun with h1 h2
        subst h2
        cases tr₁ with
        | nil =>
          simp only [List.nil_append] at hdec
          injection hdec with hx hdec2
          injection hdec2 with hy hdec3
          injection hx with hxi hxtx hxres
          injection hxres with hxm
          subst hxm
          subst hxtx
          rcases sendLoop_head env i p fuel1
              { args with gasPrice := bumpedGasPrice (env.recommend c.recIdx) }
              { c with sendIdx := c.sendIdx + 1, recIdx := c.recIdx + 1 }
            with hh | ⟨rest2, res2, hh⟩
          · rw [hh] at hdec3
            exact List.noConfusion hdec3
          · rw [hh] at hdec3
            injection hdec3 with hz hdec4
            injection hz with hzi hztx hzres
            subst hztx
            refine ⟨rfl, rfl, fun _ => ⟨rfl, c.recIdx, le_refl _, rfl⟩,
              fun hfalse _ => ?_⟩
            rw [hu0] at hfalse
            exact Bool.noConfusion hfalse
        | cons a tr₃ =>
          injection hdec with ha hdec2
          cases tr₃ with
          | nil =>
            injection hdec2 with hy hdec3
            exact Ev.noConfusion hy
          | cons b tr₄ =>
            injection hdec2 with hb2 hdec3
            obtain ⟨hpl, hgas, hup, hntl⟩ := ih
              { args with gasPrice := bumpedGasPrice (env.recommend c.recIdx) }
              { c with sendIdx := c.sendIdx + 1, recIdx := c.recIdx + 1 }
              (sendLoop env i p
                { args with gasPrice := bumpedGasPrice (env.recommend c.recIdx) }
                { c with sendIdx := c.sendIdx + 1, recIdx := c.recIdx + 1 } fuel1).1
              (sendLoop env i p
                { args with gasPrice := bumpedGasPrice (env.recommend c.recIdx) }
                { c with sendIdx := c.sendIdx + 1, recIdx := c.recIdx + 1 } fuel1).2
              tr₄ tx m tx' res' tr₂ rfl hdec3
            refine ⟨hpl, hgas, fun h => ?_, fun h h' => ?_⟩
            · obtain ⟨hnon, ri, hri, hgp⟩ := hup h
              have hri2 : c.recIdx + 1 ≤ ri := hri
              exact ⟨hnon, ri, by omega, hgp⟩
            · obtain ⟨hgp, ni, hni, hnon⟩ := hntl h h'
              have hni2 : c.cntIdx ≤ ni := hni
              exact ⟨hgp, ni, hni2, hnon⟩
      · by_cases hn0 : isNonceTooLowErr m0
        · rw [sendLoop_succ_ntl env i p args c fuel1 m0 hb (by simpa using hu0) hn0] at hrun
          injection hrun with h1 h2
          subst h2
          cases tr₁ with
          | nil =>
            simp only [List.nil_append] at hdec
            injection hdec with hx hdec2
            injection hdec2 with hy hdec3
            injection hx with hxi hxtx hxres
            injection hxres with hxm
            subst hxm
            subst hxtx
            rcases sendLoop_head env i p fuel1
                { args with nonce := env.txCount c.cntIdx }
                { c with sendIdx := c.sendIdx + 1, cntIdx := c.cntIdx + 1 }
              with hh | ⟨rest2, res2, hh⟩
            · rw [hh] at hdec3
              exact List.noConfusion hdec3
            · rw [hh] at hdec3
              injection hdec3 with hz hdec4
              injection hz with hzi hztx hzres
              subst hztx
              refine ⟨rfl, rfl, fun htrue => ?_, fun _ _ =>
                ⟨rfl, c.cntIdx, le_refl _, rfl⟩⟩
              rw [htrue] at hu0
              exact absurd rfl hu0
          | cons a tr₃ =>
            injection hdec with ha hdec2
            cases tr₃ with
            | nil =>
              injection hdec2 with hy hdec3
              exact Ev.noConfusion hy
            | cons b tr₄ =>
              injection hdec2 with hb2 hdec3
              obtain ⟨hpl, hgas, hup, hntl⟩ := ih
                { args with nonce := env.txCount c.cntIdx }
                { c with sendIdx := c.sendIdx + 1, cntIdx := c.cntIdx + 1 }
                (sendLoop env i p { args with nonce := env.txCount c.cntIdx }
                  { c with sendIdx := c.sendIdx + 1, cntIdx := c.cntIdx + 1 } fuel1).1
                (sendLoop env i p { args with nonce := env.txCount c.cntIdx }
                  { c with sendIdx := c.sendIdx + 1, cntIdx := c.cntIdx + 1 } fuel1).2
                tr₄ tx m tx' res' tr₂ rfl hdec3
              refine ⟨hpl, hgas, fun h => ?_, fun h h' => ?_⟩
              · obtain ⟨hnon, ri, hri, hgp⟩ := hup h
                have hri2 : c.recIdx ≤ ri := hri
                exact ⟨hnon, ri, hri2, hgp⟩
              · obtain ⟨hgp, ni, hni, hnon⟩ := hntl h h'
                have hni2 : c.cntIdx + 1 ≤ ni := hni
                exact ⟨hgp, ni, by omega, hnon⟩
        · rw [sendLoop_succ_fatal env i p args c fuel1 m0 hb (by simpa using hu0)
            (by simpa using hn0)] at hrun
          injection hrun with h1 h2
          subst h2
          exfalso
          have hlen := congrArg List.length hdec
          simp [List.length_append] at hlen
          omega

/-- C6 (confirmed): across the retries of one chunk submission, only the
nonce and gasPrice fields are ever revised: every rebuilt attempt keeps
the chunk payload and the gas limit; a rebuild after an underpriced
rejection leaves the nonce as it was, and a rebuild after a stale nonce
rejection leaves the gas price as it was. -/
theorem c6_retry_frame (env : Env) (i : Nat) (p : List PayoutEntry) (fuel : Nat)
    (args : TxArgs) (c : Counters) (out : LoopOut) (tr tr₁ : List Ev) (tx : SignedTx)
    (m : String) (tx' : SignedTx) (res' : BroadcastResult) (tr₂ : List Ev)
    (hrun : sendLoop env i p args c fuel = (out, tr))
    (hdec : tr = tr₁ ++ Ev.send i tx (BroadcastResult.err m) :: Ev.sleep 15 ::
      Ev.send i tx' res' :: tr₂) :
    tx'.payload = tx.payload ∧ tx'.args.gas = tx.args.gas ∧
    (isUnderpricedErr m = true → tx'.args.nonce = tx.args.nonce) ∧
    (isUnderpricedErr m = false → isNonceTooLowErr m = true →
      tx'.args.gasPrice = tx.args.gasPrice) := by
  obtain ⟨h1, h2, h3, h4⟩ :=
    sendLoop_retry_step env i p fuel args c out tr tr₁ tx m tx' res' tr₂ hrun hdec
  exact ⟨h1, h2, fun h => (h3 h).1, fun h h' => (h4 h h').1⟩

/-- Closed witness for c6_retry_frame: one underpriced rejection then an
accepted rebuilt attempt. -/
theorem c6_retry_frame_witness :
    (SignedTx.mk [] ⟨3, 8000000, 1600000000⟩).payload =
        (SignedTx.mk [] ⟨3, 8000000, 100⟩).payload ∧
    (SignedTx.mk [] ⟨3, 8000000, 1600000000⟩).args.gas =
        (SignedTx.mk [] ⟨3, 8000000, 100⟩).args.gas ∧
    (isUnderpricedErr "replacement transaction underpriced" = true →
      (SignedTx.mk [] ⟨3, 8000000, 1600000000⟩).args.nonce =
        (SignedTx.mk [] ⟨3, 8000000, 100⟩).args.nonce) ∧
    (isUnderpricedErr "replacement transaction underpriced" = false →
      isNonceTooLowErr "replacement transaction underpriced" = true →
      (SignedTx.mk [] ⟨3, 8000000, 1600000000⟩).args.gasPrice =
        (SignedTx.mk [] ⟨3, 8000000, 100⟩).args.gasPrice) :=
  c6_retry_frame envUp1 0 [] 2 ⟨3, 8000000, 100⟩ initCounters
    (sendLoop envUp1 0 [] ⟨3, 8000000, 100⟩ initCounters 2).1
    (sendLoop envUp1 0 [] ⟨3, 8000000, 100⟩ initCounters 2).2
    [] ⟨[], ⟨3, 8000000, 100⟩⟩ "replacement transaction underpriced"
    ⟨[], ⟨3, 8000000, 1600000000⟩⟩ (BroadcastResult.ok 9) [] rfl (by decide)

/-- C5 (confirmed): after a broadcast rejection whose message contains
the stale nonce fragment (and not the underpriced one), the nonce of the
rebuilt attempt is freshly re-fetched from the transaction count
collaborator, at a call index strictly later than the fetch that built
the initial transaction of the chunk: it is never reused from the failed
attempt. -/
theorem c5_nonce_freshness (env : Env) (i : Nat) (p : List PayoutEntry) (c : Counters)
    (fuel : Nat) (out : LoopOut) (tr tr₁ : List Ev) (tx : SignedTx) (m : String)
    (tx' : SignedTx) (res' : BroadcastResult) (tr₂ : List Ev)
    (hrun : sendLoop env i p (buildTxArgs env c).1 (buildTxArgs env c).2 fuel = (out, tr))
    (hdec : tr = tr₁ ++ Ev.send i tx (BroadcastResult.err m) :: Ev.sleep 15 ::
      Ev.send i tx' res' :: tr₂)
    (hu : isUnderpricedErr m = false) (hn : isNonceTooLowErr m = true) :
    ∃ ni, tx'.args.nonce = env.txCount ni ∧ c.cntIdx < ni := by
  obtain ⟨-, -, -, h4⟩ :=
    sendLoop_retry_step env i p fuel (buildTxArgs env c).1 (buildTxArgs env c).2
      out tr tr₁ tx m tx' res' tr₂ hrun hdec
  obtain ⟨-, ni, hni, hnon⟩ := h4 hu hn
  have hni2 : c.cntIdx + 1 ≤ ni := hni
  exact ⟨ni, hnon, by omega⟩

/-- Closed witness for c5_nonce_freshness: one stale nonce rejection then
an accepted rebuilt attempt with a re-fetched nonce. -/
theorem c5_nonce_freshness_witness :
    ∃ ni, (SignedTx.mk [] ⟨1, 8000000, 1400000000⟩).args.nonce = envNtl1.txCount ni ∧
      initCounters.cntIdx < ni :=
  c5_nonce_freshness envNtl1 0 [] initCounters 2
    (sendLoop envNtl1 0 [] (buildTxArgs envNtl1 initCounters).1
      (buildTxArgs envNtl1 initCounters).2 2).1
    (sendLoop envNtl1 0 [] (buildTxArgs envNtl1 initCounters).1
      (buildTxArgs envNtl1 initCounters).2 2).2
    [] ⟨[], ⟨0, 8000000, 1400000000⟩⟩ "nonce too low"
    ⟨[], ⟨1, 8000000, 1400000000⟩⟩ (BroadcastResult.ok 9) [] rfl (by decide)
    (by decide) (by decide)

/-- C9 counterexample: at an oracle recommendation of 3 gwei the program
computes int(float(3) * 10 ** 9 * 1.4) = 4199999999, one below the exact
truncation 1400000000 * 3 = 4200000000 that the claim asserts, because
the double nearest to 1.4 lies slightly below 1.4. -/
theorem c9_gas_parameters_counterexample :
    (buildTxArgs envR3 initCounters).1.gasPrice = 4199999999 ∧
    1400000000 * envR3.recommend initCounters.recIdx = 4200000000 ∧
    ¬ (buildTxArgs envR3 initCounters).1.gasPrice =
        1400000000 * envR3.recommend initCounters.recIdx :=
  ⟨by decide, by decide, by decide⟩

/-- C9 (corrected): every initially built transaction uses gas limit
exactly 8000000 whatever the chunk payload, and an initial gas price of
int(float(r) * 10 ** 9 * 1.4) in IEEE754 double arithmetic on the fresh
oracle recommendation r; the double rounding makes this the exact
1400000000 * r for some recommendations (1400000000 at r = 1) and
1400000000 * r - 1 for others (4199999999 at r = 3).  A rebuild after an
underpriced rejection instead uses int(float(rr) * 10 ** 9 * 1.6) on a
freshly fetched recommendation rr, multiplier 1.6 (1600000000 at
rr = 1, 4800000000 at rr = 3). -/
theorem c9_gas_parameters (env : Env) (i : Nat) (p : List PayoutEntry) (c : Counters)
    (fuel : Nat) (out : LoopOut) (tr tr₁ : List Ev) (tx : SignedTx) (m : String)
    (tx' : SignedTx) (res' : BroadcastResult) (tr₂ : List Ev)
    (hrun : sendLoop env i p (buildTxArgs env c).1 (buildTxArgs env c).2 fuel = (out, tr))
    (hdec : tr = tr₁ ++ Ev.send i tx (BroadcastResult.err m) :: Ev.sleep 15 ::
      Ev.send i tx' res' :: tr₂)
    (hu : isUnderpricedErr m = true) :
    (buildTxArgs env c).1.gas = 8000000 ∧
    (buildTxArgs env c).1.gasPrice = initialGasPrice (env.recommend c.recIdx) ∧
    (∃ rest res, tr = Ev.send i ⟨p, (buildTxArgs env c).1⟩ res :: rest) ∧
    (∃ ri, tx'.args.gasPrice = bumpedGasPrice (env.recommend ri)) ∧
    initialGasPrice 1 = 1400000000 ∧ initialGasPrice 3 = 4199999999 ∧
    bumpedGasPrice 1 = 1600000000 ∧ bumpedGasPrice 3 = 4800000000 := by
  refine ⟨rfl, rfl, ?_, ?_, by decide, by decide, by decide, by decide⟩
  · have htr : (sendLoop env i p (buildTxArgs env c).1 (buildTxArgs env c).2 fuel).2 = tr := by
      rw [hrun]
    rcases sendLoop_head env i p fuel (buildTxArgs env c).1 (buildTxArgs env c).2
      with hh | ⟨rest, res, hh⟩
    · rw [htr, hdec] at hh
      exact absurd hh (by simp)
    · rw [htr] at hh
      exact ⟨rest, res, hh⟩
  · obtain ⟨-, -, h3, -⟩ :=
      sendLoop_retry_step env i p fuel (buildTxArgs env c).1 (buildTxArgs env c).2
        out tr tr₁ tx m tx' res' tr₂ hrun hdec
    obtain ⟨-, ri, -, hgp⟩ := h3 hu
    exact ⟨ri, hgp⟩

/-- Closed witness for c9_gas_parameters: one underpriced rejection then
acceptance, with a constant oracle recommendation of 1 gwei. -/
theorem c9_gas_parameters_witness :
    (buildTxArgs envUp1 initCounters).1.gas = 8000000 ∧
    (buildTxArgs envUp1 initCounters).1.gasPrice =
      initialGasPrice (envUp1.recommend initCounters.recIdx) ∧
    (∃ rest res,
      (sendLoop envUp1 0 [] (buildTxArgs envUp1 initCounters).1
        (buildTxArgs envUp1 initCounters).2 2).2 =
        Ev.send 0 ⟨[], (buildTxArgs envUp1 initCounters).1⟩ res :: rest) ∧
    (∃ ri, (SignedTx.mk [] ⟨0, 8000000, 1600000000⟩).args.gasPrice =
      bumpedGasPrice (envUp1.recommend ri)) ∧
    initialGasPrice 1 = 1400000000 ∧ initialGasPrice 3 = 4199999999 ∧
    bumpedGasPrice 1 = 1600000000 ∧ bumpedGasPrice 3 = 4800000000 :=
  c9_gas_parameters envUp1 0 [] initCounters 2
    (sendLoop envUp1 0 [] (buildTxArgs envUp1 initCounters).1
      (buildTxArgs envUp1 initCounters).2 2).1
    (sendLoop envUp1 0 [] (buildTxArgs envUp1 initCounters).1
      (buildTxArgs envUp1 initCounters).2 2).2
    [] ⟨[], ⟨0, 8000000, 1400000000⟩⟩ "replacement transaction underpriced"
    ⟨[], ⟨0, 8000000, 1600000000⟩⟩ (BroadcastResult.ok 9) [] rfl (by decide) (by decide)

/-- C1 counterexample: with an oracle whose recommendation drops from 10
gwei to 1 gwei, two underpriced rejections produce attempt gas prices
14000000000, 1600000000, 1600000000: the first rebuild DECREASES the gas
price and the second leaves it unchanged, so the gas prices of the
attempts are neither strictly increasing nor non-decreasing. -/
theorem c1_gas_monotonicity_counterexample :
    (sendLoop envUp2 0 [] (buildTxArgs envUp2 initCounters).1
      (buildTxArgs envUp2 initCounters).2 3).2 =
      [Ev.send 0 ⟨[], ⟨0, 8000000, 14000000000⟩⟩
          (BroadcastResult.err "replacement transaction underpriced"),
       Ev.sleep 15,
       Ev.send 0 ⟨[], ⟨0, 8000000, 1600000000⟩⟩
          (BroadcastResult.err "replacement transaction underpriced"),
       Ev.sleep 15,
       Ev.send 0 ⟨[], ⟨0, 8000000, 1600000000⟩⟩ (BroadcastResult.ok 9)] ∧
    attemptGasPrices (sendLoop envUp2 0 [] (buildTxArgs envUp2 initCounters).1
      (buildTxArgs envUp2 initCounters).2 3).2 =
      [14000000000, 1600000000, 1600000000] ∧
    ¬ List.Chain' (· < ·) (attemptGasPrices (sendLoop envUp2 0 []
      (buildTxArgs envUp2 initCounters).1 (buildTxArgs envUp2 initCounters).2 3).2) ∧
    ¬ List.Chain' (· ≤ ·) (attemptGasPrices (sendLoop envUp2 0 []
      (buildTxArgs envUp2 initCounters).1 (buildTxArgs envUp2 initCounters).2 3).2) := by
  have hgas : attemptGasPrices (sendLoop envUp2 0 [] (buildTxArgs envUp2 initCounters).1
      (buildTxArgs envUp2 initCounters).2 3).2 = [14000000000, 1600000000, 1600000000] :=
    by decide
  refine ⟨by decide, hgas, ?_, ?_⟩
  · rw [hgas]
    intro h
    rcases List.chain'_cons.1 h with ⟨h1, -⟩
    omega
  · rw [hgas]
    intro h
    rcases List.chain'_cons.1 h with ⟨h1, -⟩
    omega

/-- When every rejection before acceptance is underpriced, the gas
prices of the attempts are fully determined by the oracle fetches: the
first attempt uses the gas price already in the arguments and the j-th
rebuild uses the bumped price of the fresh oracle call at index
c.recIdx + j. -/
lemma sendLoop_up_prices (env : Env) (i : Nat) (p : List PayoutEntry) :
    ∀ (k : Nat) (args : TxArgs) (c : Counters) (t fuel : Nat),
      (∀ j, j < k → ∃ m, env.broadcast (c.sendIdx + j) = BroadcastResult.err m ∧
        isUnderpricedErr m = true) →
      env.broadcast (c.sendIdx + k) = BroadcastResult.ok t →
      k + 1 ≤ fuel →
      ∃ c' tr, sendLoop env i p args c fuel = (LoopOut.success t c', tr) ∧
        attemptGasPrices tr = args.gasPrice ::
          (List.range k).map (fun j => bumpedGasPrice (env.recommend (c.recIdx + j))) := by
  intro k
  induction k with
  | zero =>
    intro args c t fuel hscript hok hfuel
    obtain ⟨fuel1, rfl⟩ : ∃ f, fuel = f + 1 := ⟨fuel - 1, by omega⟩
    rw [sendLoop_succ_ok env i p args c fuel1 t (by simpa using hok)]
    exact ⟨_, _, rfl, by simp [attemptGasPrices]⟩
  | succ k ihk =>
    intro args c t fuel hscript hok hfuel
    obtain ⟨fuel1, rfl⟩ : ∃ f, fuel = f + 1 := ⟨fuel - 1, by omega⟩
    obtain ⟨m, hb, hu⟩ := hscript 0 (Nat.succ_pos k)
    rw [Nat.add_zero] at hb
    obtain ⟨c', tr', hrun', hprices⟩ := ihk
      { args with gasPrice := bumpedGasPrice (env.recommend c.recIdx) }
      { c with sendIdx := c.sendIdx + 1, recIdx := c.recIdx + 1 }
      t fuel1
      (fun j hj => by
        obtain ⟨m1, hb1, hc1⟩ := hscript (j + 1) (by omega)
        refine ⟨m1, ?_, hc1⟩
        rw [show c.sendIdx + 1 + j = c.sendIdx + (j + 1) from by omega]
        exact hb1)
      (by
        rw [show c.sendIdx + 1 + k = c.sendIdx + (k + 1) from by omega]
        exact hok)
      (by omega)
    rw [sendLoop_succ_up env i p args c fuel1 m hb hu, hrun']
    refine ⟨c', _, rfl, ?_⟩
    have hatt : attemptGasPrices (Ev.send i ⟨p, args⟩ (BroadcastResult.err m) ::
        Ev.sleep 15 :: tr') = args.gasPrice :: attemptGasPrices tr' := by
      simp [attemptGasPrices]
    rw [hatt, hprices, List.range_succ_eq_map, List.map_cons, List.map_map]
    refine congrArg (List.cons args.gasPrice) (congrArg₂ List.cons ?_ ?_)
    · rw [Nat.add_zero]
    · refine List.map_congr_left fun j hj => ?_
      show bumpedGasPrice (env.recommend (c.recIdx + 1 + j)) =
        bumpedGasPrice (env.recommend (c.recIdx + (j + 1)))
      rw [show c.recIdx + 1 + j = c.recIdx + (j + 1) from by omega]

/-- C1 (corrected): the gas prices used across the retries of one
submission cycle are fully determined by the successive fresh oracle
fetches: the first attempt uses int(float(r0) * 10 ** 9 * 1.4) on the
fetch made when the transaction was built, and the j-th underpriced
rebuild uses int(float(rj) * 10 ** 9 * 1.6) on the strictly later fetch
at oracle call index c.recIdx + 1 + j.  Whether the price rises is
therefore inherited from the oracle alone: it stays equal under an
unchanged recommendation and can even decrease when the recommendation
drops, as the counterexample shows. -/
theorem c1_gas_monotonicity_amended (env : Env) (i : Nat) (p : List PayoutEntry)
    (c : Counters) (k t fuel : Nat)
    (hscript : ∀ j, j < k → ∃ m, env.broadcast (c.sendIdx + j) = BroadcastResult.err m ∧
      isUnderpricedErr m = true)
    (hok : env.broadcast (c.sendIdx + k) = BroadcastResult.ok t)
    (hfuel : k + 1 ≤ fuel) :
    ∃ c' tr,
      sendLoop env i p (buildTxArgs env c).1 (buildTxArgs env c).2 fuel =
        (LoopOut.success t c', tr) ∧
      attemptGasPrices tr = initialGasPrice (env.recommend c.recIdx) ::
        (List.range k).map (fun j => bumpedGasPrice (env.recommend (c.recIdx + 1 + j))) := by
  obtain ⟨c', tr, hrun, hprices⟩ := sendLoop_up_prices env i p k
    (buildTxArgs env c).1 (buildTxArgs env c).2 t fuel hscript hok hfuel
  exact ⟨c', tr, hrun, hprices⟩

/-- Closed witness for c1_gas_monotonicity_amended: one underpriced
rejection then acceptance, constant oracle of 1 gwei. -/
theorem c1_gas_monotonicity_amended_witness :
    ∃ c' tr,
      sendLoop envUp1 0 [] (buildTxArgs envUp1 initCounters).1
        (buildTxArgs envUp1 initCounters).2 2 = (LoopOut.success 9 c', tr) ∧
      attemptGasPrices tr = initialGasPrice (envUp1.recommend initCounters.recIdx) ::
        (List.range 1).map (fun j =>
          bumpedGasPrice (envUp1.recommend (initCounters.recIdx + 1 + j))) :=
  c1_gas_monotonicity_amended envUp1 0 [] initCounters 1 9 2
    (fun j hj => by
      interval_cases j
      exact ⟨"replacement transaction underpriced", by decide, by decide⟩)
    (by decide) (by decide)

end Round8
